import Mathlib

/-!
Shallow embedding of the batch job orchestration core of
`src/ai-services/src/api/endpoints/batch_processing.py`.

Modelling conventions:
* `time.time()` is modelled by a natural-number clock stored in the system
  state; every read of the clock also advances it, so distinct timestamp
  reads yield strictly increasing values.
* `uuid.uuid4()` is modelled by a natural-number counter `next_id`, which
  yields ids that are fresh with respect to all existing jobs.
* Python floats (`progress_percentage`) are modelled by rationals; the
  values relevant to the claims (0 and 100) are exact in both.
* Python dicts (`BATCH_JOBS`, `PROCESSING_JOBS`) are modelled by
  association lists keyed by id (ids are unique, so first-match lookup
  agrees with dict lookup); `JOB_QUEUE` is a list of ids.
* The per-item mock processors (`_process_nlp_batch` and friends) share
  one body shape: try-block appending to `results` and bumping
  `successful_items`, except-block appending to `errors` and bumping
  `failed_items`, finally-block bumping `processed_items` and recomputing
  `progress_percentage` as `(processed_items / total_items) * 100` (a
  `ZeroDivisionError` when `total_items = 0`).  The type-specific constant
  payload fields of the mock result dicts carry no state and are elided;
  whether the try-block raises is abstracted into an oracle
  `procOk : BatchJobType → Item → Bool` (the source mocks never raise,
  i.e. `procOk = fun _ _ => true`, but the ItemProcessor interface allows
  item failure, which the except-branch of the source handles).
* Concurrency granularity: each event-loop callback slab (the code
  between two `await` suspension points) is one atomic step of the
  transition relation.  `_process_job_queue` contains no `await`, so the
  whole pass — popping ids and calling `asyncio.create_task` — is one
  step (`createTask` per popped id happens inside it); the created
  task's prefix, which sets `status = PROCESSING` and `started_at`
  (`_process_batch_job` up to its first suspension), runs in a LATER
  event-loop batch and is its own step (`startJob`).  Between the two,
  the popped job is observably still `pending`, absent from `JOB_QUEUE`
  and present in `PROCESSING_JOBS`; other handlers (cancel, reads) may
  run in that window.  Items of one job are processed in list order
  (one legal schedule).
-/

inductive BatchStatus
  | pending
  | processing
  | completed
  | failed
  | cancelled
deriving DecidableEq, Repr

inductive BatchJobType
  | nlp_analysis
  | document_classification
  | risk_assessment
  | regulatory_analysis
  | model_training
  | bulk_prediction
deriving DecidableEq, Repr

/-- Items are opaque input values; an abstract countable carrier suffices. -/
abbrev Item := Nat

/-- The job-type-specific `parameters` dict.  The executor reads only the
`"items"` key (via `job.parameters.get("items", [])`); `itemsKey` is that
value, `[]` when the key is absent.  All other keys are inert. -/
structure BatchParams where
  itemsKey : List Item
deriving DecidableEq, Repr

/-- One entry of `job.results` (the constant mock payload fields are
elided; `index`, `input` and `processed_at` are the stateful fields). -/
structure ResultEntry where
  index : Nat
  input : Item
  processed_at : Nat
deriving DecidableEq, Repr

/-- One entry of `job.errors`.  Item-level entries carry `index`/`input`;
the job-level entry appended by `_process_batch_job`'s except-branch has
`"type": "job_failure"` (flag `is_job_failure`) and no index. -/
structure ErrorEntry where
  index : Option Nat
  input : Option Item
  message : String
  timestamp : Nat
  is_job_failure : Bool
deriving DecidableEq, Repr

/-- The `BatchJob` pydantic model: note that the submitted `items` list
itself is NOT stored — only its length (`total_items`). -/
structure BatchJob where
  job_id : Nat
  job_type : BatchJobType
  name : String
  description : Option String
  status : BatchStatus
  created_at : Nat
  started_at : Option Nat
  completed_at : Option Nat
  total_items : Nat
  processed_items : Nat
  successful_items : Nat
  failed_items : Nat
  progress_percentage : ℚ
  results : List ResultEntry
  errors : List ErrorEntry
  parameters : BatchParams
  priority : Int
  max_workers : Nat
deriving DecidableEq, Repr

/-- The `BatchJobRequest` pydantic model. -/
structure BatchJobRequest where
  job_type : BatchJobType
  name : String
  description : Option String
  items : List Item
  parameters : BatchParams
  priority : Int
  max_workers : Nat
  timeout_per_item : Nat
deriving DecidableEq, Repr

/-- The module-level mutable state: `BATCH_JOBS`, `JOB_QUEUE`,
`PROCESSING_JOBS` (modelled by its key set, as a list), plus the clock and
the id source. -/
structure SysState where
  batch_jobs : List (Nat × BatchJob)
  job_queue : List Nat
  processing_jobs : List Nat
  clock : Nat
  next_id : Nat
deriving DecidableEq, Repr

def initState : SysState :=
  { batch_jobs := [], job_queue := [], processing_jobs := [], clock := 0, next_id := 0 }

/-- Dict lookup `BATCH_JOBS[jid]` (first match; ids are unique). -/
def lookupJob : List (Nat × BatchJob) → Nat → Option BatchJob
  | [], _ => none
  | p :: ps, jid => if p.1 = jid then some p.2 else lookupJob ps jid

def SysState.job (s : SysState) (jid : Nat) : Option BatchJob :=
  lookupJob s.batch_jobs jid

/-- In-place mutation of one job record, `BATCH_JOBS[jid] = f(...)`. -/
def setJob (s : SysState) (jid : Nat) (f : BatchJob → BatchJob) : SysState :=
  { s with batch_jobs := s.batch_jobs.map (fun p => if p.1 = jid then (p.1, f p.2) else p) }

/-- `list.remove(x)` / `del dict[x]`: drop the first occurrence. -/
def removeFirst (x : Nat) : List Nat → List Nat
  | [] => []
  | y :: ys => if y = x then ys else y :: removeFirst x ys

/-- Observation helpers used to state the claims. -/
def statusOf (s : SysState) (jid : Nat) : Option BatchStatus :=
  (s.job jid).map BatchJob.status

def completedAtOf (s : SysState) (jid : Nat) : Option (Option Nat) :=
  (s.job jid).map BatchJob.completed_at

def jobTypeOf (s : SysState) (jid : Nat) : Option BatchJobType :=
  (s.job jid).map BatchJob.job_type

/-- Whether the executor cursor still has `parameters["items"]` entries
to process (`none` when the job id is unknown). -/
def hasItemsLeft (s : SysState) (jid : Nat) : Option Bool :=
  (s.job jid).map (fun j => decide (j.processed_items < j.parameters.itemsKey.length))

/-- Sort key of `JOB_QUEUE.sort(key=lambda jid: BATCH_JOBS[jid].priority, reverse=True)`. -/
def priorityOf (jobs : List (Nat × BatchJob)) (jid : Nat) : Int :=
  ((lookupJob jobs jid).map BatchJob.priority).getD 0

def createdOf (jobs : List (Nat × BatchJob)) (jid : Nat) : Nat :=
  ((lookupJob jobs jid).map BatchJob.created_at).getD 0

/-- Insert `x` after every element whose key is ≥ its own (descending,
stable position for ties). -/
def insertDesc (key : Nat → Int) (x : Nat) : List Nat → List Nat
  | [] => [x]
  | y :: ys => if key y < key x then x :: y :: ys else y :: insertDesc key x ys

/-- Python's `list.sort(key=..., reverse=True)` is the stable descending
sort by key; any stable descending sort computes it.  This one folds the
input left to right, inserting each element after all already-placed
elements of ≥ key, so input order is preserved among equal keys. -/
def stableSortDesc (key : Nat → Int) (l : List Nat) : List Nat :=
  l.foldl (fun acc x => insertDesc key x acc) []

/-- `JOB_QUEUE.index(job_id)` (0-based). -/
def idxIn (x : Nat) : List Nat → Nat
  | [] => 0
  | y :: ys => if y = x then 0 else idxIn x ys + 1

/-- The response body of `POST /jobs` (`data` object). -/
structure CreateResponse where
  job_id : Nat
  status : BatchStatus
  total_items : Nat
  queue_position : Nat
deriving DecidableEq, Repr

/-- The fresh `BatchJob(...)` constructed by `create_batch_job`. -/
def mkJob (req : BatchJobRequest) (jid : Nat) (now : Nat) : BatchJob :=
  { job_id := jid
    job_type := req.job_type
    name := req.name
    description := req.description
    status := BatchStatus.pending
    created_at := now
    started_at := none
    completed_at := none
    total_items := req.items.length
    processed_items := 0
    successful_items := 0
    failed_items := 0
    progress_percentage := 0
    results := []
    errors := []
    parameters := req.parameters
    priority := req.priority
    max_workers := req.max_workers }

/-- `create_batch_job` up to (but not including) the background
`_process_job_queue` task: allocate id, store the record, append the id to
the queue and re-sort it by priority (descending, stable). -/
def createJobOp (req : BatchJobRequest) (s : SysState) : SysState × CreateResponse :=
  let jid := s.next_id
  let job := mkJob req jid s.clock
  let jobs := s.batch_jobs ++ [(jid, job)]
  let q := stableSortDesc (priorityOf jobs) (s.job_queue ++ [jid])
  ({ batch_jobs := jobs
     job_queue := q
     processing_jobs := s.processing_jobs
     clock := s.clock + 1
     next_id := jid + 1 },
   { job_id := jid
     status := job.status
     total_items := job.total_items
     queue_position := idxIn jid q + 1 })

/-- `job.status = BatchStatus.PROCESSING; job.started_at = time.time()`. -/
def procStart (now : Nat) (j : BatchJob) : BatchJob :=
  { j with status := BatchStatus.processing, started_at := some now }

/-- `job.status = BatchStatus.CANCELLED; job.completed_at = time.time()`. -/
def cancelMark (now : Nat) (j : BatchJob) : BatchJob :=
  { j with status := BatchStatus.cancelled, completed_at := some now }

/-- Overwrite a record wholesale (used when the new record was computed
from the looked-up one beforehand). -/
def putJob (b : BatchJob) : BatchJob → BatchJob := fun _ => b

/-- `PROCESSING_JOBS[job_id] = asyncio.create_task(_process_batch_job
(job_id))`: the popped id's task is created and registered.  Nothing
else happens yet — in particular the job's status is NOT touched; the
created task only runs in a later event-loop batch. -/
def createTask (jid : Nat) (s : SysState) : SysState :=
  { s with processing_jobs := s.processing_jobs ++ [jid] }

/-- The created task's prefix (`_process_batch_job` up to its first
suspension): `job.status = BatchStatus.PROCESSING; job.started_at =
time.time()` — unconditionally, with no re-check of the current status
(this is what overwrites a cancellation that lands in the window between
`create_task` and this prefix). -/
def startJob (jid : Nat) (s : SysState) : SysState :=
  { setJob s jid (procStart s.clock) with clock := s.clock + 1 }

/-- `_process_job_queue`: `while JOB_QUEUE and len(PROCESSING_JOBS) < 3`,
pop the queue head and start it if it is a known pending job.  The `while`
loop is run on fuel = initial queue length (the queue shrinks by one per
iteration, so this is exact). -/
def processQueueFuel : Nat → SysState → SysState
  | 0, s => s
  | fuel + 1, s =>
    if s.processing_jobs.length < 3 then
      match s.job_queue with
      | [] => s
      | jid :: rest =>
        let s1 : SysState := { s with job_queue := rest }
        match s1.job jid with
        | some job =>
          if job.status = BatchStatus.pending then
            processQueueFuel fuel (createTask jid s1)
          else
            processQueueFuel fuel s1
        | none => processQueueFuel fuel s1
    else s

def processJobQueue (s : SysState) : SysState :=
  processQueueFuel s.job_queue.length s

/-- Full effect of `POST /jobs`: `create_batch_job` plus the background
task `_process_job_queue` it schedules. -/
def submitOp (req : BatchJobRequest) (s : SysState) : SysState × CreateResponse :=
  let (s1, resp) := createJobOp req s
  (processJobQueue s1, resp)

inductive CancelOutcome
  | notFound
  | conflictCompleted
  | ok
deriving DecidableEq, Repr

/-- `DELETE /jobs/{job_id}` (`cancel_batch_job`): 404 on unknown id; 400
only when the job is COMPLETED; otherwise cancel the running task (if
any), drop the id from the queue, set `status = CANCELLED` and
`completed_at = time.time()`. -/
def cancelOp (jid : Nat) (s : SysState) : SysState × CancelOutcome :=
  match s.job jid with
  | none => (s, CancelOutcome.notFound)
  | some job =>
    if job.status = BatchStatus.completed then
      (s, CancelOutcome.conflictCompleted)
    else
      let procs1 :=
        if job.status = BatchStatus.processing then
          removeFirst jid s.processing_jobs
        else s.processing_jobs
      let s2 : SysState :=
        { s with processing_jobs := procs1, job_queue := removeFirst jid s.job_queue }
      let s3 := setJob s2 jid (cancelMark s.clock)
      ({ s3 with clock := s.clock + 1 }, CancelOutcome.ok)

/-- The shared per-item body: try-block (mock result or item error) then
the counter updates of the finally-block, before the progress write. -/
def processOneItem (succeeds : Bool) (idx : Nat) (item : Item) (now : Nat)
    (job : BatchJob) : BatchJob :=
  let job1 :=
    if succeeds then
      { job with results := job.results ++ [({ index := idx, input := item, processed_at := now } : ResultEntry)]
                 successful_items := job.successful_items + 1 }
    else
      { job with errors := job.errors ++ [({ index := some idx, input := some item, message := "item processing error", timestamp := now, is_job_failure := false } : ErrorEntry)]
                 failed_items := job.failed_items + 1 }
  { job1 with processed_items := job1.processed_items + 1 }

/-- `job.progress_percentage = (job.processed_items / job.total_items) * 100`;
`none` models the `ZeroDivisionError` raised when `total_items = 0`. -/
def updateProgress (job : BatchJob) : Option BatchJob :=
  if job.total_items = 0 then none
  else some { job with progress_percentage :=
    ((job.processed_items : ℚ) / (job.total_items : ℚ)) * 100 }

/-- The job-level error entry appended by `_process_batch_job`'s
except-branch (`"type": "job_failure"`). -/
def jobFailureEntry (msg : String) (now : Nat) : ErrorEntry :=
  ⟨none, none, msg, now, true⟩

/-- Mark a processing job failed: except-branch of `_process_batch_job`
plus its finally-branch (`del PROCESSING_JOBS[job_id]`). -/
def failJob (jid : Nat) (msg : String) (job : BatchJob) (s : SysState) : SysState :=
  let jobF := { job with status := BatchStatus.failed
                         completed_at := some s.clock
                         errors := job.errors ++ [jobFailureEntry msg s.clock] }
  { setJob s jid (putJob jobF) with
    clock := s.clock + 1
    processing_jobs := removeFirst jid s.processing_jobs }

/-- One per-item slab of an executor task: the item at cursor
`processed_items` of `parameters["items"]` is processed.  A
`ZeroDivisionError` in the progress computation propagates to
`_process_batch_job`'s except-branch, failing the job. -/
def runOneItem (procOk : BatchJobType → Item → Bool) (jid : Nat) (s : SysState) : SysState :=
  match s.job jid with
  | none => s
  | some job =>
    let idx := job.processed_items
    match job.parameters.itemsKey.get? idx with
    | none => s
    | some item =>
      let job1 := processOneItem (procOk job.job_type item) idx item s.clock job
      match updateProgress job1 with
      | some job2 => { setJob s jid (putJob job2) with clock := s.clock + 1 }
      | none => failJob jid "division by zero" job1 { s with clock := s.clock + 1 }

/-- Final slab of an executor task.  For `MODEL_TRAINING` no dispatch
branch exists and `_process_batch_job` raises
`ValueError("Unknown job type: ...")`, caught by its except-branch; for
every other type, all parameter items having been processed, the job is
marked COMPLETED with `progress_percentage = 100.0`.  Either way the task
handle is removed from `PROCESSING_JOBS`; NO admission pass is run. -/
def finishJobStep (jid : Nat) (s : SysState) : SysState :=
  match s.job jid with
  | none => s
  | some job =>
    if job.job_type = BatchJobType.model_training then
      failJob jid "Unknown job type: model_training" job s
    else
      let jobC := { job with status := BatchStatus.completed
                             completed_at := some s.clock
                             progress_percentage := 100 }
      { setJob s jid (putJob jobC) with
        clock := s.clock + 1
        processing_jobs := removeFirst jid s.processing_jobs }

/-- The atomic steps of the system (granularity per the header comment). -/
inductive Step (procOk : BatchJobType → Item → Bool) : SysState → SysState → Prop
  | submit (req : BatchJobRequest) (s : SysState) :
      Step procOk s (submitOp req s).1
  | cancel (jid : Nat) (s : SysState) :
      Step procOk s (cancelOp jid s).1
  | start (jid : Nat) (s : SysState)
      (hin : jid ∈ s.processing_jobs)
      (hst : statusOf s jid = some BatchStatus.pending ∨
        statusOf s jid = some BatchStatus.cancelled) :
      Step procOk s (startJob jid s)
  | work (jid : Nat) (s : SysState)
      (hst : statusOf s jid = some BatchStatus.processing)
      (hin : jid ∈ s.processing_jobs)
      (hty : jobTypeOf s jid ≠ some BatchJobType.model_training)
      (hrem : hasItemsLeft s jid = some true) :
      Step procOk s (runOneItem procOk jid s)
  | finish (jid : Nat) (s : SysState)
      (hst : statusOf s jid = some BatchStatus.processing)
      (hin : jid ∈ s.processing_jobs)
      (hdone : jobTypeOf s jid = some BatchJobType.model_training ∨
        hasItemsLeft s jid = some false) :
      Step procOk s (finishJobStep jid s)

inductive Reachable (procOk : BatchJobType → Item → Bool) : SysState → Prop
  | init : Reachable procOk initState
  | step {s t : SysState} : Reachable procOk s → Step procOk s t → Reachable procOk t

inductive ReachableFrom (procOk : BatchJobType → Item → Bool) : SysState → SysState → Prop
  | refl (s : SysState) : ReachableFrom procOk s s
  | step {s u t : SysState} : ReachableFrom procOk s u → Step procOk u t →
      ReachableFrom procOk s t

/-! ### Helper lemmas about the association list `BATCH_JOBS` -/

theorem lookupJob_append_left {l l' : List (Nat × BatchJob)} {x : Nat} {b : BatchJob}
    (h : lookupJob l x = some b) : lookupJob (l ++ l') x = some b := by
  induction l with
  | nil => simp [lookupJob] at h
  | cons p ps ih =>
    simp only [lookupJob] at h
    simp only [List.cons_append, lookupJob]
    by_cases hp : p.1 = x
    · rw [if_pos hp] at h ⊢
      exact h
    · rw [if_neg hp] at h ⊢
      exact ih h

theorem lookupJob_not_mem {l : List (Nat × BatchJob)} {x : Nat}
    (h : x ∉ l.map Prod.fst) : lookupJob l x = none := by
  induction l with
  | nil => rfl
  | cons p ps ih =>
    simp only [List.map_cons, List.mem_cons, not_or] at h
    obtain ⟨h1, h2⟩ := h
    simp only [lookupJob]
    rw [if_neg (fun hh => h1 hh.symm)]
    exact ih h2

theorem lookupJob_append_right {l l' : List (Nat × BatchJob)} {x : Nat}
    (h : x ∉ l.map Prod.fst) : lookupJob (l ++ l') x = lookupJob l' x := by
  induction l with
  | nil => rfl
  | cons p ps ih =>
    simp only [List.map_cons, List.mem_cons, not_or] at h
    obtain ⟨h1, h2⟩ := h
    simp only [List.cons_append, lookupJob]
    rw [if_neg (fun hh => h1 hh.symm)]
    exact ih h2

theorem mem_of_lookupJob {l : List (Nat × BatchJob)} {x : Nat} {b : BatchJob}
    (h : lookupJob l x = some b) : (x, b) ∈ l := by
  induction l with
  | nil => simp [lookupJob] at h
  | cons p ps ih =>
    simp only [lookupJob] at h
    by_cases hp : p.1 = x
    · rw [if_pos hp] at h
      obtain rfl : p.2 = b := Option.some.inj h
      obtain ⟨a, c⟩ := p
      simp only at hp
      subst hp
      exact List.mem_cons_self _ _
    · rw [if_neg hp] at h
      exact List.mem_cons_of_mem _ (ih h)

theorem mem_keys_of_lookupJob {l : List (Nat × BatchJob)} {x : Nat} {b : BatchJob}
    (h : lookupJob l x = some b) : x ∈ l.map Prod.fst :=
  List.mem_map.2 ⟨(x, b), mem_of_lookupJob h, rfl⟩

theorem lookupJob_of_mem {l : List (Nat × BatchJob)} {x : Nat} {b : BatchJob}
    (hn : (l.map Prod.fst).Nodup) (hm : (x, b) ∈ l) : lookupJob l x = some b := by
  induction l with
  | nil => simp at hm
  | cons p ps ih =>
    simp only [List.map_cons, List.nodup_cons] at hn
    rcases List.mem_cons.1 hm with h | h
    · subst h
      simp [lookupJob]
    · have hx : x ∈ ps.map Prod.fst := List.mem_map.2 ⟨(x, b), h, rfl⟩
      have hne : p.1 ≠ x := fun he => hn.1 (by rw [he]; exact hx)
      simp only [lookupJob]
      rw [if_neg hne]
      exact ih hn.2 h

theorem lookupJob_map_set (l : List (Nat × BatchJob)) (jid : Nat) (f : BatchJob → BatchJob)
    (x : Nat) :
    lookupJob (l.map (fun p => if p.1 = jid then (p.1, f p.2) else p)) x =
      if x = jid then (lookupJob l jid).map f else lookupJob l x := by
  induction l with
  | nil => simp [lookupJob]
  | cons p ps ih =>
    simp only [List.map_cons, lookupJob]
    by_cases hpj : p.1 = jid
    · by_cases hx : x = jid
      · subst hx
        simp [lookupJob, hpj, ih]
      · have hnj : jid ≠ x := fun hh => hx hh.symm
        simp only [hpj, if_true, lookupJob]
        rw [if_neg hnj, if_neg hx, if_neg hnj, ih, if_neg hx]
    · by_cases hpx : p.1 = x
      · have hx : x ≠ jid := by rw [← hpx]; exact hpj
        simp only [hpj, if_false, lookupJob]
        rw [if_pos hpx, if_neg hx, if_pos hpx]
      · simp only [hpj, if_false, lookupJob]
        rw [if_neg hpx, if_neg hpx, ih]

theorem setJob_job (s : SysState) (jid : Nat) (f : BatchJob → BatchJob) (x : Nat) :
    (setJob s jid f).job x = if x = jid then (s.job jid).map f else s.job x :=
  lookupJob_map_set s.batch_jobs jid f x

theorem setJob_keys (s : SysState) (jid : Nat) (f : BatchJob → BatchJob) :
    (setJob s jid f).batch_jobs.map Prod.fst = s.batch_jobs.map Prod.fst := by
  simp only [setJob, List.map_map]
  apply List.map_congr_left
  intro p _
  by_cases hp : p.1 = jid <;> simp [hp]

theorem mem_setJob_elim {l : List (Nat × BatchJob)} {jid : Nat} {f : BatchJob → BatchJob}
    {p : Nat × BatchJob}
    (hp : p ∈ l.map (fun q => if q.1 = jid then (q.1, f q.2) else q)) :
    (p.1 = jid ∧ ∃ b, (jid, b) ∈ l ∧ p = (jid, f b)) ∨ (p.1 ≠ jid ∧ p ∈ l) := by
  rcases List.mem_map.1 hp with ⟨q, hq, hqe⟩
  by_cases hj : q.1 = jid
  · left
    subst hqe
    rw [if_pos hj]
    refine ⟨hj, q.2, ?_, by rw [hj]⟩
    rw [← hj]
    exact hq
  · right
    subst hqe
    rw [if_neg hj]
    exact ⟨hj, hq⟩

/-! ### Helper lemmas about `removeFirst` -/

theorem removeFirst_sublist (x : Nat) (l : List Nat) : List.Sublist (removeFirst x l) l := by
  induction l with
  | nil => simp [removeFirst]
  | cons y ys ih =>
    simp only [removeFirst]
    by_cases hy : y = x
    · rw [if_pos hy]
      exact List.sublist_cons_self y ys
    · rw [if_neg hy]
      exact List.Sublist.cons₂ y ih

theorem mem_of_mem_removeFirst {x y : Nat} {l : List Nat}
    (h : y ∈ removeFirst x l) : y ∈ l :=
  (removeFirst_sublist x l).mem h

theorem mem_removeFirst_of_ne {x y : Nat} {l : List Nat}
    (hm : y ∈ l) (hne : y ≠ x) : y ∈ removeFirst x l := by
  induction l with
  | nil => simp at hm
  | cons z zs ih =>
    simp only [removeFirst]
    rcases List.mem_cons.1 hm with h | h
    · subst h
      rw [if_neg hne]
      exact List.mem_cons_self _ _
    · by_cases hz : z = x
      · rw [if_pos hz]
        exact h
      · rw [if_neg hz]
        exact List.mem_cons_of_mem _ (ih h)

theorem not_mem_removeFirst_self {x : Nat} {l : List Nat}
    (hn : l.Nodup) : x ∉ removeFirst x l := by
  induction l with
  | nil => simp [removeFirst]
  | cons z zs ih =>
    simp only [List.nodup_cons] at hn
    simp only [removeFirst]
    by_cases hz : z = x
    · rw [if_pos hz]
      rw [hz] at hn
      exact hn.1
    · rw [if_neg hz]
      intro hmem
      rcases List.mem_cons.1 hmem with h | h
      · exact hz h.symm
      · exact ih hn.2 h

theorem count_removeFirst_ne {x y : Nat} (l : List Nat) (hne : y ≠ x) :
    (removeFirst x l).count y = l.count y := by
  induction l with
  | nil => simp [removeFirst]
  | cons z zs ih =>
    simp only [removeFirst]
    by_cases hz : z = x
    · rw [if_pos hz]
      subst hz
      rw [List.count_cons_of_ne hne]
    · rw [if_neg hz]
      by_cases hzy : z = y
      · subst hzy
        rw [List.count_cons_self, List.count_cons_self, ih]
      · rw [List.count_cons_of_ne (fun hh => hzy hh.symm), List.count_cons_of_ne (fun hh => hzy hh.symm), ih]

theorem removeFirst_of_not_mem {x : Nat} {l : List Nat} (h : x ∉ l) :
    removeFirst x l = l := by
  induction l with
  | nil => rfl
  | cons z zs ih =>
    simp only [List.mem_cons, not_or] at h
    simp only [removeFirst]
    rw [if_neg (fun hh => h.1 hh.symm), ih h.2]

/-! ### Helper lemmas about the stable priority sort -/

theorem insertDesc_perm (key : Nat → Int) (x : Nat) (l : List Nat) :
    List.Perm (insertDesc key x l) (x :: l) := by
  induction l with
  | nil => simp [insertDesc]
  | cons y ys ih =>
    simp only [insertDesc]
    by_cases hy : key y < key x
    · rw [if_pos hy]
    · rw [if_neg hy]
      exact (ih.cons y).trans (List.Perm.swap x y ys)

theorem mem_insertDesc {key : Nat → Int} {x z : Nat} {l : List Nat} :
    z ∈ insertDesc key x l ↔ z = x ∨ z ∈ l := by
  rw [(insertDesc_perm key x l).mem_iff]
  simp

theorem insertDesc_cons_ge (key : Nat → Int) {x y : Nat} (l : List Nat)
    (h : ¬ key y < key x) : insertDesc key x (y :: l) = y :: insertDesc key x l := by
  simp only [insertDesc]
  rw [if_neg h]

/-- Folding further inserts over an accumulator headed by a maximal element
leaves that head in place. -/
theorem foldl_insertDesc_cons (key : Nat → Int) (l : List Nat) :
    ∀ (acc : List Nat) (a : Nat), (∀ y ∈ l, key y ≤ key a) →
    l.foldl (fun acc x => insertDesc key x acc) (a :: acc) =
      a :: l.foldl (fun acc x => insertDesc key x acc) acc := by
  induction l with
  | nil => intro acc a _; rfl
  | cons y ys ih =>
    intro acc a hle
    simp only [List.foldl_cons]
    rw [insertDesc_cons_ge key acc (not_lt.2 (hle y (List.mem_cons_self y ys)))]
    exact ih (insertDesc key y acc) a (fun z hz => hle z (List.mem_cons_of_mem _ hz))

/-- A list already sorted descending by key is a fixed point of the stable
sort. -/
theorem stableSortDesc_sorted_id (key : Nat → Int) (l : List Nat)
    (h : l.Pairwise (fun a b => key b ≤ key a)) : stableSortDesc key l = l := by
  induction l with
  | nil => rfl
  | cons a l' ih =>
    rw [List.pairwise_cons] at h
    show (a :: l').foldl (fun acc x => insertDesc key x acc) [] = a :: l'
    simp only [List.foldl_cons]
    show l'.foldl (fun acc x => insertDesc key x acc) (insertDesc key a []) = a :: l'
    have : insertDesc key a [] = a :: ([] : List Nat) := rfl
    rw [this, foldl_insertDesc_cons key l' [] a h.1]
    exact congrArg (a :: ·) (ih h.2)

theorem stableSortDesc_append_singleton (key : Nat → Int) (l : List Nat) (x : Nat)
    (h : l.Pairwise (fun a b => key b ≤ key a)) :
    stableSortDesc key (l ++ [x]) = insertDesc key x l := by
  show (l ++ [x]).foldl (fun acc x => insertDesc key x acc) [] = insertDesc key x l
  rw [List.foldl_append]
  show insertDesc key x (stableSortDesc key l) = insertDesc key x l
  rw [stableSortDesc_sorted_id key l h]

/-- Inserting a maximal-timestamp element preserves the queue ordering
relation, provided the relation refines the descending key order. -/
theorem insertDesc_pairwise {key : Nat → Int} {R : Nat → Nat → Prop} {x : Nat}
    (hmono : ∀ a b, R a b → key b ≤ key a) :
    ∀ {l : List Nat}, l.Pairwise R →
    (∀ y ∈ l, ¬ key y < key x → R y x) →
    (∀ y ∈ l, key y < key x → R x y) →
    (insertDesc key x l).Pairwise R := by
  intro l
  induction l with
  | nil => intro _ _ _; simp [insertDesc]
  | cons y ys ih =>
    intro hp hge hlt
    rw [List.pairwise_cons] at hp
    simp only [insertDesc]
    by_cases hy : key y < key x
    · rw [if_pos hy]
      refine List.pairwise_cons.2 ⟨?_, List.pairwise_cons.2 ⟨hp.1, hp.2⟩⟩
      intro z hz
      rcases List.mem_cons.1 hz with h | h
      · rw [h]
        exact hlt y (List.mem_cons_self y ys) hy
      · have hzy : key z ≤ key y := hmono y z (hp.1 z h)
        exact hlt z (List.mem_cons_of_mem _ h) (lt_of_le_of_lt hzy hy)
    · rw [if_neg hy]
      refine List.pairwise_cons.2 ⟨?_, ?_⟩
      · intro z hz
        rcases mem_insertDesc.1 hz with h | h
        · rw [h]
          exact hge y (List.mem_cons_self y ys) hy
        · exact hp.1 z h
      · exact ih hp.2 (fun z hz => hge z (List.mem_cons_of_mem _ hz))
          (fun z hz => hlt z (List.mem_cons_of_mem _ hz))

/-! ### The inductive system invariant -/

/-- Per-job counter/progress facts that hold in every reachable state:
the counters reconcile, the processed count is bounded by the length of
the `parameters["items"]` list the executor actually iterates over, and a
completed job shows 100 percent progress. -/
def goodJob (job : BatchJob) : Prop :=
  job.processed_items = job.successful_items + job.failed_items ∧
  job.processed_items ≤ job.parameters.itemsKey.length ∧
  (job.status = BatchStatus.completed → job.progress_percentage = 100)

/-- The pending-queue ordering: strictly higher priority first, FIFO by
creation time among equal priorities. -/
def queueKey (jobs : List (Nat × BatchJob)) (a b : Nat) : Prop :=
  priorityOf jobs b < priorityOf jobs a ∨
    (priorityOf jobs a = priorityOf jobs b ∧ createdOf jobs a < createdOf jobs b)

/-- The global invariant of the batch-processing module state. -/
structure SysInv (s : SysState) : Prop where
  ids_lt : ∀ p ∈ s.batch_jobs, p.1 < s.next_id
  ids_nodup : (s.batch_jobs.map Prod.fst).Nodup
  key_eq : ∀ p ∈ s.batch_jobs, p.2.job_id = p.1
  created_lt : ∀ p ∈ s.batch_jobs, p.2.created_at < s.clock
  queue_pending : ∀ jid ∈ s.job_queue,
    ∃ job, s.job jid = some job ∧ job.status = BatchStatus.pending
  pending_queued : ∀ p ∈ s.batch_jobs,
    p.2.status = BatchStatus.pending →
      (s.job_queue.count p.1 = 1 ∧ p.1 ∉ s.processing_jobs) ∨
      (p.1 ∈ s.processing_jobs ∧ s.job_queue.count p.1 = 0)
  queue_nodup : s.job_queue.Nodup
  proc_status : ∀ jid ∈ s.processing_jobs,
    ∃ job, s.job jid = some job ∧
      (job.status = BatchStatus.pending ∨ job.status = BatchStatus.processing ∨
        job.status = BatchStatus.cancelled)
  proc_all : ∀ p ∈ s.batch_jobs,
    p.2.status = BatchStatus.processing → p.1 ∈ s.processing_jobs
  proc_not_queued : ∀ jid ∈ s.processing_jobs, jid ∉ s.job_queue
  proc_nodup : s.processing_jobs.Nodup
  proc_bound : s.processing_jobs.length ≤ 3
  jobs_good : ∀ p ∈ s.batch_jobs, goodJob p.2
  queue_sorted : s.job_queue.Pairwise (queueKey s.batch_jobs)

theorem inv_init : SysInv initState := by
  constructor <;> simp [initState]

/-- Queue members are stored jobs. -/
theorem queue_mem_keys {s : SysState} (hinv : SysInv s) {jid : Nat}
    (h : jid ∈ s.job_queue) : jid ∈ s.batch_jobs.map Prod.fst := by
  rcases hinv.queue_pending jid h with ⟨job, hl, _⟩
  exact mem_keys_of_lookupJob hl

/-- `PROCESSING_JOBS` members are existing job ids. -/
theorem proc_mem_lt {s : SysState} (hinv : SysInv s) {jid : Nat}
    (h : jid ∈ s.processing_jobs) : jid < s.next_id := by
  rcases hinv.proc_status jid h with ⟨job, hl, _⟩
  rcases List.mem_map.1 (mem_keys_of_lookupJob hl) with ⟨p, hp, hpe⟩
  exact hpe ▸ hinv.ids_lt p hp

/-! ### Invariant preservation: job creation -/

theorem inv_createJobOp {s : SysState} (hinv : SysInv s) (req : BatchJobRequest) :
    SysInv (createJobOp req s).1 := by
  have hfresh : s.next_id ∉ s.batch_jobs.map Prod.fst := by
    intro hmem
    rcases List.mem_map.1 hmem with ⟨p, hp, hpe⟩
    exact absurd (hpe ▸ hinv.ids_lt p hp) (lt_irrefl _)
  have hnew : lookupJob (s.batch_jobs ++ [(s.next_id, mkJob req s.next_id s.clock)]) s.next_id
      = some (mkJob req s.next_id s.clock) := by
    rw [lookupJob_append_right hfresh]
    simp [lookupJob]
  have hold : ∀ x b, lookupJob s.batch_jobs x = some b →
      lookupJob (s.batch_jobs ++ [(s.next_id, mkJob req s.next_id s.clock)]) x = some b :=
    fun _ _ h => lookupJob_append_left h
  have hqmem_lt : ∀ x ∈ s.job_queue, x < s.next_id := by
    intro x hx
    rcases hinv.queue_pending x hx with ⟨b, hl, _⟩
    rcases List.mem_map.1 (mem_keys_of_lookupJob hl) with ⟨p, hp, hpe⟩
    exact hpe ▸ hinv.ids_lt p hp
  have hkeyp : ∀ x ∈ s.job_queue,
      priorityOf (s.batch_jobs ++ [(s.next_id, mkJob req s.next_id s.clock)]) x
        = priorityOf s.batch_jobs x := by
    intro x hx
    rcases hinv.queue_pending x hx with ⟨b, hl, _⟩
    have hl' : lookupJob s.batch_jobs x = some b := hl
    unfold priorityOf
    rw [hold x b hl', hl']
  have hkeyc : ∀ x ∈ s.job_queue,
      createdOf (s.batch_jobs ++ [(s.next_id, mkJob req s.next_id s.clock)]) x
        = createdOf s.batch_jobs x := by
    intro x hx
    rcases hinv.queue_pending x hx with ⟨b, hl, _⟩
    have hl' : lookupJob s.batch_jobs x = some b := hl
    unfold createdOf
    rw [hold x b hl', hl']
  have hcreated_q : ∀ x ∈ s.job_queue,
      createdOf (s.batch_jobs ++ [(s.next_id, mkJob req s.next_id s.clock)]) x < s.clock := by
    intro x hx
    rcases hinv.queue_pending x hx with ⟨b, hl, _⟩
    have hl' : lookupJob s.batch_jobs x = some b := hl
    have : createdOf (s.batch_jobs ++ [(s.next_id, mkJob req s.next_id s.clock)]) x
        = b.created_at := by
      unfold createdOf
      rw [hold x b hl']
      rfl
    rw [this]
    exact hinv.created_lt (x, b) (mem_of_lookupJob hl')
  have hsorted : s.job_queue.Pairwise (fun a b =>
      priorityOf (s.batch_jobs ++ [(s.next_id, mkJob req s.next_id s.clock)]) b
        ≤ priorityOf (s.batch_jobs ++ [(s.next_id, mkJob req s.next_id s.clock)]) a) := by
    refine List.Pairwise.imp_of_mem ?_ hinv.queue_sorted
    intro a b ha hb hab
    rw [hkeyp a ha, hkeyp b hb]
    rcases hab with h | h
    · exact le_of_lt h
    · exact le_of_eq h.1.symm
  have hq : stableSortDesc (priorityOf (s.batch_jobs ++ [(s.next_id, mkJob req s.next_id s.clock)]))
      (s.job_queue ++ [s.next_id])
      = insertDesc (priorityOf (s.batch_jobs ++ [(s.next_id, mkJob req s.next_id s.clock)]))
        s.next_id s.job_queue :=
    stableSortDesc_append_singleton _ _ _ hsorted
  show SysInv
    { batch_jobs := s.batch_jobs ++ [(s.next_id, mkJob req s.next_id s.clock)]
      job_queue := stableSortDesc
        (priorityOf (s.batch_jobs ++ [(s.next_id, mkJob req s.next_id s.clock)]))
        (s.job_queue ++ [s.next_id])
      processing_jobs := s.processing_jobs
      clock := s.clock + 1
      next_id := s.next_id + 1 }
  rw [hq]
  constructor
  case ids_lt =>
    intro p hp
    rcases List.mem_append.1 hp with h | h
    · exact lt_trans (hinv.ids_lt p h) (Nat.lt_succ_self _)
    · simp only [List.mem_singleton] at h
      rw [h]
      exact Nat.lt_succ_self _
  case ids_nodup =>
    rw [List.map_append]
    refine List.Nodup.append hinv.ids_nodup (List.nodup_singleton _) ?_
    intro a ha hb
    simp only [List.map_cons, List.map_nil, List.mem_singleton] at hb
    rw [hb] at ha
    exact hfresh ha
  case key_eq =>
    intro p hp
    rcases List.mem_append.1 hp with h | h
    · exact hinv.key_eq p h
    · simp only [List.mem_singleton] at h
      rw [h]
      rfl
  case created_lt =>
    intro p hp
    rcases List.mem_append.1 hp with h | h
    · exact lt_trans (hinv.created_lt p h) (Nat.lt_succ_self _)
    · simp only [List.mem_singleton] at h
      rw [h]
      exact Nat.lt_succ_self _
  case queue_pending =>
    intro jid hjid
    rcases mem_insertDesc.1 hjid with h | h
    · subst h
      exact ⟨mkJob req s.next_id s.clock, hnew, rfl⟩
    · rcases hinv.queue_pending jid h with ⟨b, hl, hst⟩
      exact ⟨b, hold jid b hl, hst⟩
  case pending_queued =>
    intro p hp hpend
    have hcount := (insertDesc_perm
      (priorityOf (s.batch_jobs ++ [(s.next_id, mkJob req s.next_id s.clock)]))
      s.next_id s.job_queue).count_eq p.1
    rcases List.mem_append.1 hp with h | h
    · have hne : p.1 ≠ s.next_id := Nat.ne_of_lt (hinv.ids_lt p h)
      rcases hinv.pending_queued p h hpend with ⟨hc, hnp⟩ | ⟨hip, hc⟩
      · refine Or.inl ⟨?_, hnp⟩
        show List.count p.1 _ = 1
        rw [hcount, List.count_cons_of_ne hne, hc]
      · refine Or.inr ⟨hip, ?_⟩
        show List.count p.1 _ = 0
        rw [hcount, List.count_cons_of_ne hne, hc]
    · simp only [List.mem_singleton] at h
      refine Or.inl ⟨?_, ?_⟩
      · show List.count p.1 _ = 1
        rw [hcount, h]
        show List.count s.next_id (s.next_id :: s.job_queue) = 1
        rw [List.count_cons_self, List.count_eq_zero.2 (fun hmem =>
          absurd (hqmem_lt s.next_id hmem) (lt_irrefl _))]
      · rw [h]
        show s.next_id ∉ s.processing_jobs
        intro hmem
        exact absurd (proc_mem_lt hinv hmem) (lt_irrefl _)
  case queue_nodup =>
    refine (insertDesc_perm _ _ _).nodup_iff.2 ?_
    refine List.nodup_cons.2 ⟨fun hmem => absurd (hqmem_lt s.next_id hmem) (lt_irrefl _), hinv.queue_nodup⟩
  case proc_status =>
    intro jid hjid
    rcases hinv.proc_status jid hjid with ⟨b, hl, hst⟩
    exact ⟨b, hold jid b hl, hst⟩
  case proc_all =>
    intro p hp hst
    rcases List.mem_append.1 hp with h | h
    · exact hinv.proc_all p h hst
    · simp only [List.mem_singleton] at h
      rw [h] at hst
      exact absurd hst (by simp [mkJob])
  case proc_not_queued =>
    intro jid hjid hmem
    rcases mem_insertDesc.1 hmem with h | h
    · exact absurd (h ▸ proc_mem_lt hinv hjid) (lt_irrefl _)
    · exact hinv.proc_not_queued jid hjid h
  case proc_nodup => exact hinv.proc_nodup
  case proc_bound => exact hinv.proc_bound
  case jobs_good =>
    intro p hp
    rcases List.mem_append.1 hp with h | h
    · exact hinv.jobs_good p h
    · simp only [List.mem_singleton] at h
      rw [h]
      exact ⟨rfl, Nat.zero_le _, by simp [mkJob]⟩
  case queue_sorted =>
    refine insertDesc_pairwise ?_ ?_ ?_ ?_
    · intro a b hab
      rcases hab with h | h
      · exact le_of_lt h
      · exact le_of_eq h.1.symm
    · refine List.Pairwise.imp_of_mem ?_ hinv.queue_sorted
      intro a b ha hb hab
      unfold queueKey at hab ⊢
      rw [hkeyp a ha, hkeyp b hb, hkeyc a ha, hkeyc b hb]
      exact hab
    · intro y hy hnlt
      have hle : priorityOf (s.batch_jobs ++ [(s.next_id, mkJob req s.next_id s.clock)]) s.next_id
          ≤ priorityOf (s.batch_jobs ++ [(s.next_id, mkJob req s.next_id s.clock)]) y :=
        not_lt.1 hnlt
      rcases lt_or_eq_of_le hle with h | h
      · exact Or.inl h
      · refine Or.inr ⟨h.symm, ?_⟩
        have hcn : createdOf (s.batch_jobs ++ [(s.next_id, mkJob req s.next_id s.clock)]) s.next_id
            = s.clock := by
          unfold createdOf
          rw [hnew]
          rfl
        rw [hcn]
        exact hcreated_q y hy
    · intro y hy hlt
      exact Or.inl hlt

/-! ### Generic transfer lemmas for in-place record updates -/

theorem keys_map_set (l : List (Nat × BatchJob)) (jid : Nat) (f : BatchJob → BatchJob) :
    (l.map (fun p => if p.1 = jid then (p.1, f p.2) else p)).map Prod.fst = l.map Prod.fst := by
  rw [List.map_map]
  apply List.map_congr_left
  intro p _
  by_cases hp : p.1 = jid <;> simp [hp]

theorem forall_map_set (l : List (Nat × BatchJob)) (jid : Nat) (f : BatchJob → BatchJob)
    {P : Nat × BatchJob → Prop}
    (h1 : ∀ p ∈ l, p.1 ≠ jid → P p)
    (h2 : ∀ b, (jid, b) ∈ l → P (jid, f b)) :
    ∀ p ∈ l.map (fun q => if q.1 = jid then (q.1, f q.2) else q), P p := by
  intro p hp
  rcases mem_setJob_elim hp with ⟨hpe, b, hb, hpb⟩ | ⟨hpe, hpm⟩
  · rw [hpb]
    exact h2 b hb
  · exact h1 p hpm hpe

theorem priorityOf_map_set (l : List (Nat × BatchJob)) (jid : Nat) (f : BatchJob → BatchJob)
    (x : Nat) (hf : ∀ j, (f j).priority = j.priority) :
    priorityOf (l.map (fun p => if p.1 = jid then (p.1, f p.2) else p)) x = priorityOf l x := by
  unfold priorityOf
  rw [lookupJob_map_set]
  by_cases hx : x = jid
  · subst hx
    rw [if_pos rfl]
    cases h : lookupJob l x
    · rfl
    · simp [hf]
  · rw [if_neg hx]

theorem createdOf_map_set (l : List (Nat × BatchJob)) (jid : Nat) (f : BatchJob → BatchJob)
    (x : Nat) (hf : ∀ j, (f j).created_at = j.created_at) :
    createdOf (l.map (fun p => if p.1 = jid then (p.1, f p.2) else p)) x = createdOf l x := by
  unfold createdOf
  rw [lookupJob_map_set]
  by_cases hx : x = jid
  · subst hx
    rw [if_pos rfl]
    cases h : lookupJob l x
    · rfl
    · simp [hf]
  · rw [if_neg hx]

theorem queueKey_map_set (l : List (Nat × BatchJob)) (jid : Nat) (f : BatchJob → BatchJob)
    (hfp : ∀ j, (f j).priority = j.priority)
    (hfc : ∀ j, (f j).created_at = j.created_at) (a b : Nat) :
    queueKey (l.map (fun p => if p.1 = jid then (p.1, f p.2) else p)) a b ↔ queueKey l a b := by
  unfold queueKey
  rw [priorityOf_map_set l jid f a hfp, priorityOf_map_set l jid f b hfp,
    createdOf_map_set l jid f a hfc, createdOf_map_set l jid f b hfc]

/-! ### Invariant preservation: admission -/

theorem inv_createTask {s : SysState} (hinv : SysInv s) {jid : Nat} {rest : List Nat}
    (hq : s.job_queue = jid :: rest) (hcap : s.processing_jobs.length < 3) :
    SysInv (createTask jid { s with job_queue := rest }) := by
  rcases hinv.queue_pending jid (by rw [hq]; exact List.mem_cons_self _ _) with ⟨job, hl, hpend⟩
  have hl' : lookupJob s.batch_jobs jid = some job := hl
  have hmem : (jid, job) ∈ s.batch_jobs := mem_of_lookupJob hl'
  have hnodup : (jid :: rest).Nodup := by rw [← hq]; exact hinv.queue_nodup
  have hnr : jid ∉ rest := (List.nodup_cons.1 hnodup).1
  have hnp : jid ∉ s.processing_jobs := by
    rcases hinv.pending_queued (jid, job) hmem hpend with ⟨_, hnp⟩ | ⟨_, hc0⟩
    · exact hnp
    · exfalso
      rw [hq, List.count_cons_self] at hc0
      exact Nat.succ_ne_zero _ hc0
  show SysInv
    { batch_jobs := s.batch_jobs
      job_queue := rest
      processing_jobs := s.processing_jobs ++ [jid]
      clock := s.clock
      next_id := s.next_id }
  constructor
  case ids_lt => exact hinv.ids_lt
  case ids_nodup => exact hinv.ids_nodup
  case key_eq => exact hinv.key_eq
  case created_lt => exact hinv.created_lt
  case queue_pending =>
    intro x hx
    exact hinv.queue_pending x (by rw [hq]; exact List.mem_cons_of_mem _ hx)
  case pending_queued =>
    intro p hp hpend2
    by_cases hpj : p.1 = jid
    · refine Or.inr ⟨?_, ?_⟩
      · rw [hpj]
        exact List.mem_append_right _ (List.mem_singleton.2 rfl)
      · rw [hpj]
        exact List.count_eq_zero.2 hnr
    · rcases hinv.pending_queued p hp hpend2 with ⟨hc, hnp2⟩ | ⟨hip, hc⟩
      · refine Or.inl ⟨?_, ?_⟩
        · rw [hq, List.count_cons_of_ne hpj] at hc
          exact hc
        · intro hmem2
          rcases List.mem_append.1 hmem2 with h | h
          · exact hnp2 h
          · simp only [List.mem_singleton] at h
            exact hpj h
      · refine Or.inr ⟨List.mem_append_left _ hip, ?_⟩
        rw [hq, List.count_cons_of_ne hpj] at hc
        exact hc
  case queue_nodup => exact (List.nodup_cons.1 hnodup).2
  case proc_status =>
    intro x hx
    rcases List.mem_append.1 hx with h | h
    · exact hinv.proc_status x h
    · simp only [List.mem_singleton] at h
      subst h
      exact ⟨job, hl, Or.inl hpend⟩
  case proc_all =>
    intro p hp hstp
    exact List.mem_append_left _ (hinv.proc_all p hp hstp)
  case proc_not_queued =>
    intro x hx
    rcases List.mem_append.1 hx with h | h
    · intro hmem2
      exact hinv.proc_not_queued x h (by rw [hq]; exact List.mem_cons_of_mem _ hmem2)
    · simp only [List.mem_singleton] at h
      subst h
      exact hnr
  case proc_nodup =>
    refine List.Nodup.append hinv.proc_nodup (List.nodup_singleton _) ?_
    intro a ha hb
    simp only [List.mem_singleton] at hb
    rw [hb] at ha
    exact hnp ha
  case proc_bound =>
    rw [List.length_append, List.length_singleton]
    exact hcap
  case jobs_good => exact hinv.jobs_good
  case queue_sorted =>
    have := hinv.queue_sorted
    rw [hq] at this
    exact (List.pairwise_cons.1 this).2

theorem inv_startJob {s : SysState} (hinv : SysInv s) {jid : Nat}
    (hin : jid ∈ s.processing_jobs)
    (hst : statusOf s jid = some BatchStatus.pending ∨
      statusOf s jid = some BatchStatus.cancelled) :
    SysInv (startJob jid s) := by
  have hex : ∃ job, s.job jid = some job := by
    rcases hst with h | h
    · rcases Option.map_eq_some'.1 h with ⟨job, hl, _⟩
      exact ⟨job, hl⟩
    · rcases Option.map_eq_some'.1 h with ⟨job, hl, _⟩
      exact ⟨job, hl⟩
  rcases hex with ⟨job, hl⟩
  have hl' : lookupJob s.batch_jobs jid = some job := hl
  have hnq : jid ∉ s.job_queue := hinv.proc_not_queued jid hin
  show SysInv
    { batch_jobs := s.batch_jobs.map (fun p => if p.1 = jid then
        (p.1, procStart s.clock p.2) else p)
      job_queue := s.job_queue
      processing_jobs := s.processing_jobs
      clock := s.clock + 1
      next_id := s.next_id }
  constructor
  case ids_lt =>
    dsimp only
    refine forall_map_set s.batch_jobs jid (procStart s.clock)
      (fun p hp _ => hinv.ids_lt p hp) ?_
    intro b hb
    exact hinv.ids_lt (jid, b) hb
  case ids_nodup =>
    dsimp only
    rw [keys_map_set s.batch_jobs jid (procStart s.clock)]
    exact hinv.ids_nodup
  case key_eq =>
    dsimp only
    refine forall_map_set s.batch_jobs jid (procStart s.clock)
      (fun p hp _ => hinv.key_eq p hp) ?_
    intro b hb
    exact hinv.key_eq (jid, b) hb
  case created_lt =>
    dsimp only
    refine forall_map_set s.batch_jobs jid (procStart s.clock)
      (fun p hp _ => lt_trans (hinv.created_lt p hp) (Nat.lt_succ_self _)) ?_
    intro b hb
    exact lt_trans (hinv.created_lt (jid, b) hb) (Nat.lt_succ_self _)
  case queue_pending =>
    dsimp only
    intro x hx
    have hxne : x ≠ jid := fun he => hnq (he ▸ hx)
    rcases hinv.queue_pending x hx with ⟨b, hlb, hstb⟩
    refine ⟨b, ?_, hstb⟩
    show lookupJob (s.batch_jobs.map (fun p => if p.1 = jid then
      (p.1, procStart s.clock p.2) else p)) x = some b
    rw [lookupJob_map_set s.batch_jobs jid (procStart s.clock) x, if_neg hxne]
    exact hlb
  case pending_queued =>
    dsimp only
    refine forall_map_set s.batch_jobs jid (procStart s.clock) ?_ ?_
    · intro p hp _ hpend2
      exact hinv.pending_queued p hp hpend2
    · intro b _ hpend2
      exact absurd hpend2 (by simp [procStart])
  case queue_nodup =>
    dsimp only
    exact hinv.queue_nodup
  case proc_status =>
    dsimp only
    intro x hx
    by_cases hxj : x = jid
    · subst hxj
      refine ⟨procStart s.clock job, ?_, Or.inr (Or.inl rfl)⟩
      show lookupJob (s.batch_jobs.map (fun p => if p.1 = x then
        (p.1, procStart s.clock p.2) else p)) x = some (procStart s.clock job)
      rw [lookupJob_map_set s.batch_jobs x (procStart s.clock) x, if_pos rfl, hl']
      rfl
    · rcases hinv.proc_status x hx with ⟨b, hlb, hstb⟩
      refine ⟨b, ?_, hstb⟩
      show lookupJob (s.batch_jobs.map (fun p => if p.1 = jid then
        (p.1, procStart s.clock p.2) else p)) x = some b
      rw [lookupJob_map_set s.batch_jobs jid (procStart s.clock) x, if_neg hxj]
      exact hlb
  case proc_all =>
    dsimp only
    refine forall_map_set s.batch_jobs jid (procStart s.clock) ?_ ?_
    · intro p hp _ hstp
      exact hinv.proc_all p hp hstp
    · intro b _ _
      exact hin
  case proc_not_queued =>
    dsimp only
    exact hinv.proc_not_queued
  case proc_nodup =>
    dsimp only
    exact hinv.proc_nodup
  case proc_bound =>
    dsimp only
    exact hinv.proc_bound
  case jobs_good =>
    dsimp only
    refine forall_map_set s.batch_jobs jid (procStart s.clock)
      (fun p hp _ => hinv.jobs_good p hp) ?_
    intro b hb
    rcases hinv.jobs_good (jid, b) hb with ⟨h1, h2, _⟩
    exact ⟨h1, h2, by simp [procStart]⟩
  case queue_sorted =>
    dsimp only
    refine List.Pairwise.imp_of_mem ?_ hinv.queue_sorted
    intro a b _ _ hab
    exact (queueKey_map_set s.batch_jobs jid (procStart s.clock)
      (fun _ => rfl) (fun _ => rfl) a b).2 hab

/-- One unfolding equation for the admission loop, resolved under the
invariant: the popped head is always a known pending job. -/
theorem inv_processQueueFuel {s : SysState} (hinv : SysInv s) :
    ∀ fuel : Nat, SysInv (processQueueFuel fuel s) := by
  intro fuel
  induction fuel generalizing s with
  | zero => exact hinv
  | succ n ih =>
    show SysInv (processQueueFuel (n + 1) s)
    rw [processQueueFuel]
    by_cases hcap : s.processing_jobs.length < 3
    · rw [if_pos hcap]
      cases hq : s.job_queue with
      | nil => exact hinv
      | cons jid rest =>
        rcases hinv.queue_pending jid (by rw [hq]; exact List.mem_cons_self _ _) with ⟨job, hl, hpend⟩
        have hl' : lookupJob s.batch_jobs jid = some job := hl
        dsimp only [SysState.job]
        simp only [hl']
        rw [if_pos hpend]
        exact ih (inv_createTask hinv hq hcap)
    · rw [if_neg hcap]
      exact hinv

theorem inv_processJobQueue {s : SysState} (hinv : SysInv s) : SysInv (processJobQueue s) :=
  inv_processQueueFuel hinv _

theorem inv_submitOp {s : SysState} (hinv : SysInv s) (req : BatchJobRequest) :
    SysInv (submitOp req s).1 :=
  inv_processJobQueue (inv_createJobOp hinv req)

/-! ### Invariant preservation: cancellation -/

theorem inv_cancel_core (s : SysState) (hinv : SysInv s) (jid : Nat) (job : BatchJob)
    (hl : s.job jid = some job) :
    SysInv
      { batch_jobs := s.batch_jobs.map (fun p => if p.1 = jid then
          (p.1, cancelMark s.clock p.2) else p)
        job_queue := removeFirst jid s.job_queue
        processing_jobs :=
          if job.status = BatchStatus.processing then
            removeFirst jid s.processing_jobs
          else s.processing_jobs
        clock := s.clock + 1
        next_id := s.next_id } := by
  have hl' : lookupJob s.batch_jobs jid = some job := hl
  have hdet : ∀ b, s.job jid = some b → b = job := by
    intro b hb
    rw [hl] at hb
    exact (Option.some.inj hb.symm)
  constructor
  case ids_lt =>
    dsimp only
    refine forall_map_set s.batch_jobs jid (cancelMark s.clock)
      (fun p hp _ => hinv.ids_lt p hp) ?_
    intro b hb
    exact hinv.ids_lt (jid, b) hb
  case ids_nodup =>
    dsimp only
    rw [keys_map_set s.batch_jobs jid (cancelMark s.clock)]
    exact hinv.ids_nodup
  case key_eq =>
    dsimp only
    refine forall_map_set s.batch_jobs jid (cancelMark s.clock)
      (fun p hp _ => hinv.key_eq p hp) ?_
    intro b hb
    exact hinv.key_eq (jid, b) hb
  case created_lt =>
    dsimp only
    refine forall_map_set s.batch_jobs jid (cancelMark s.clock)
      (fun p hp _ => lt_trans (hinv.created_lt p hp) (Nat.lt_succ_self _)) ?_
    intro b hb
    exact lt_trans (hinv.created_lt (jid, b) hb) (Nat.lt_succ_self _)
  case queue_pending =>
    dsimp only
    intro x hx
    have hxq : x ∈ s.job_queue := mem_of_mem_removeFirst hx
    have hxne : x ≠ jid := by
      intro he
      rw [he] at hx
      exact not_mem_removeFirst_self hinv.queue_nodup hx
    rcases hinv.queue_pending x hxq with ⟨b, hlb, hstb⟩
    refine ⟨b, ?_, hstb⟩
    show lookupJob (s.batch_jobs.map (fun p => if p.1 = jid then
      (p.1, cancelMark s.clock p.2) else p)) x = some b
    rw [lookupJob_map_set s.batch_jobs jid (cancelMark s.clock) x, if_neg hxne]
    exact hlb
  case pending_queued =>
    dsimp only
    refine forall_map_set s.batch_jobs jid (cancelMark s.clock) ?_ ?_
    · intro p hp hpe hpend
      rcases hinv.pending_queued p hp hpend with ⟨hc, hnp2⟩ | ⟨hip, hc⟩
      · refine Or.inl ⟨?_, ?_⟩
        · rw [count_removeFirst_ne s.job_queue hpe]
          exact hc
        · intro hmem2
          apply hnp2
          by_cases hjs : job.status = BatchStatus.processing
          · rw [if_pos hjs] at hmem2
            exact mem_of_mem_removeFirst hmem2
          · rw [if_neg hjs] at hmem2
            exact hmem2
      · refine Or.inr ⟨?_, ?_⟩
        · by_cases hjs : job.status = BatchStatus.processing
          · rw [if_pos hjs]
            exact mem_removeFirst_of_ne hip hpe
          · rw [if_neg hjs]
            exact hip
        · rw [count_removeFirst_ne s.job_queue hpe]
          exact hc
    · intro b _ hpend
      exact absurd hpend (by simp [cancelMark])
  case queue_nodup =>
    dsimp only
    exact List.Nodup.sublist (removeFirst_sublist jid s.job_queue) hinv.queue_nodup
  case proc_status =>
    dsimp only
    intro x hx
    by_cases hxj : x = jid
    · subst hxj
      refine ⟨cancelMark s.clock job, ?_, Or.inr (Or.inr rfl)⟩
      show lookupJob (s.batch_jobs.map (fun p => if p.1 = x then
        (p.1, cancelMark s.clock p.2) else p)) x = some (cancelMark s.clock job)
      rw [lookupJob_map_set s.batch_jobs x (cancelMark s.clock) x, if_pos rfl, hl']
      rfl
    · have hxp : x ∈ s.processing_jobs := by
        by_cases hjs : job.status = BatchStatus.processing
        · rw [if_pos hjs] at hx
          exact mem_of_mem_removeFirst hx
        · rw [if_neg hjs] at hx
          exact hx
      rcases hinv.proc_status x hxp with ⟨b, hlb, hstb⟩
      refine ⟨b, ?_, hstb⟩
      show lookupJob (s.batch_jobs.map (fun p => if p.1 = jid then
        (p.1, cancelMark s.clock p.2) else p)) x = some b
      rw [lookupJob_map_set s.batch_jobs jid (cancelMark s.clock) x, if_neg hxj]
      exact hlb
  case proc_all =>
    dsimp only
    refine forall_map_set s.batch_jobs jid (cancelMark s.clock) ?_ ?_
    · intro p hp hpe hst
      have hmem := hinv.proc_all p hp hst
      by_cases hjs : job.status = BatchStatus.processing
      · rw [if_pos hjs]
        exact mem_removeFirst_of_ne hmem hpe
      · rw [if_neg hjs]
        exact hmem
    · intro b _ hst
      exact absurd hst (by simp [cancelMark])
  case proc_not_queued =>
    dsimp only
    intro x hx
    have hxp : x ∈ s.processing_jobs := by
      by_cases hjs : job.status = BatchStatus.processing
      · rw [if_pos hjs] at hx
        exact mem_of_mem_removeFirst hx
      · rw [if_neg hjs] at hx
        exact hx
    intro hmem2
    exact hinv.proc_not_queued x hxp (mem_of_mem_removeFirst hmem2)
  case proc_nodup =>
    dsimp only
    by_cases hjs : job.status = BatchStatus.processing
    · rw [if_pos hjs]
      exact List.Nodup.sublist (removeFirst_sublist jid s.processing_jobs) hinv.proc_nodup
    · rw [if_neg hjs]
      exact hinv.proc_nodup
  case proc_bound =>
    dsimp only
    by_cases hjs : job.status = BatchStatus.processing
    · rw [if_pos hjs]
      exact le_trans (List.Sublist.length_le (removeFirst_sublist jid s.processing_jobs))
        hinv.proc_bound
    · rw [if_neg hjs]
      exact hinv.proc_bound
  case jobs_good =>
    dsimp only
    refine forall_map_set s.batch_jobs jid (cancelMark s.clock)
      (fun p hp _ => hinv.jobs_good p hp) ?_
    intro b hb
    rcases hinv.jobs_good (jid, b) hb with ⟨h1, h2, _⟩
    exact ⟨h1, h2, by simp [cancelMark]⟩
  case queue_sorted =>
    dsimp only
    have hsub : (removeFirst jid s.job_queue).Pairwise (queueKey s.batch_jobs) :=
      List.Pairwise.sublist (removeFirst_sublist jid s.job_queue) hinv.queue_sorted
    refine List.Pairwise.imp_of_mem ?_ hsub
    intro a b _ _ hab
    exact (queueKey_map_set s.batch_jobs jid (cancelMark s.clock)
      (fun _ => rfl) (fun _ => rfl) a b).2 hab

theorem inv_cancelOp {s : SysState} (hinv : SysInv s) (jid : Nat) :
    SysInv (cancelOp jid s).1 := by
  cases hl : s.job jid with
  | none =>
    have he : (cancelOp jid s).1 = s := by
      simp only [cancelOp, hl]
    rw [he]
    exact hinv
  | some job =>
    by_cases hc : job.status = BatchStatus.completed
    · have he : (cancelOp jid s).1 = s := by
        simp only [cancelOp, hl, if_pos hc]
      rw [he]
      exact hinv
    · have he : (cancelOp jid s).1 =
        { batch_jobs := s.batch_jobs.map (fun p => if p.1 = jid then
            (p.1, cancelMark s.clock p.2) else p)
          job_queue := removeFirst jid s.job_queue
          processing_jobs :=
            if job.status = BatchStatus.processing then
              removeFirst jid s.processing_jobs
            else s.processing_jobs
          clock := s.clock + 1
          next_id := s.next_id } := by
        simp only [cancelOp, hl, if_neg hc, setJob]
      rw [he]
      exact inv_cancel_core s hinv jid job hl

/-! ### Invariant preservation: executor steps -/

theorem priorityOf_map_set_ne (l : List (Nat × BatchJob)) (jid : Nat) (f : BatchJob → BatchJob)
    (x : Nat) (hx : x ≠ jid) :
    priorityOf (l.map (fun p => if p.1 = jid then (p.1, f p.2) else p)) x = priorityOf l x := by
  unfold priorityOf
  rw [lookupJob_map_set, if_neg hx]

theorem createdOf_map_set_ne (l : List (Nat × BatchJob)) (jid : Nat) (f : BatchJob → BatchJob)
    (x : Nat) (hx : x ≠ jid) :
    createdOf (l.map (fun p => if p.1 = jid then (p.1, f p.2) else p)) x = createdOf l x := by
  unfold createdOf
  rw [lookupJob_map_set, if_neg hx]

theorem queueKey_map_set_ne (l : List (Nat × BatchJob)) (jid : Nat) (f : BatchJob → BatchJob)
    (a b : Nat) (ha : a ≠ jid) (hb : b ≠ jid) :
    queueKey (l.map (fun p => if p.1 = jid then (p.1, f p.2) else p)) a b ↔ queueKey l a b := by
  unfold queueKey
  rw [priorityOf_map_set_ne l jid f a ha, priorityOf_map_set_ne l jid f b hb,
    createdOf_map_set_ne l jid f a ha, createdOf_map_set_ne l jid f b hb]

theorem processOneItem_total (ok : Bool) (idx : Nat) (item : Item) (now : Nat) (j : BatchJob) :
    (processOneItem ok idx item now j).total_items = j.total_items := by
  cases ok <;> rfl

theorem processOneItem_status (ok : Bool) (idx : Nat) (item : Item) (now : Nat) (j : BatchJob) :
    (processOneItem ok idx item now j).status = j.status := by
  cases ok <;> rfl

theorem processOneItem_parameters (ok : Bool) (idx : Nat) (item : Item) (now : Nat) (j : BatchJob) :
    (processOneItem ok idx item now j).parameters = j.parameters := by
  cases ok <;> rfl

theorem processOneItem_priority (ok : Bool) (idx : Nat) (item : Item) (now : Nat) (j : BatchJob) :
    (processOneItem ok idx item now j).priority = j.priority := by
  cases ok <;> rfl

theorem processOneItem_created (ok : Bool) (idx : Nat) (item : Item) (now : Nat) (j : BatchJob) :
    (processOneItem ok idx item now j).created_at = j.created_at := by
  cases ok <;> rfl

theorem processOneItem_job_id (ok : Bool) (idx : Nat) (item : Item) (now : Nat) (j : BatchJob) :
    (processOneItem ok idx item now j).job_id = j.job_id := by
  cases ok <;> rfl

theorem processOneItem_processed (ok : Bool) (idx : Nat) (item : Item) (now : Nat) (j : BatchJob) :
    (processOneItem ok idx item now j).processed_items = j.processed_items + 1 := by
  cases ok <;> rfl

theorem processOneItem_sum (ok : Bool) (idx : Nat) (item : Item) (now : Nat) (j : BatchJob) :
    (processOneItem ok idx item now j).successful_items
      + (processOneItem ok idx item now j).failed_items
      = j.successful_items + j.failed_items + 1 := by
  cases ok
  · show j.successful_items + (j.failed_items + 1) = j.successful_items + j.failed_items + 1
    omega
  · show j.successful_items + 1 + j.failed_items = j.successful_items + j.failed_items + 1
    omega

/-- Replacing a processing job's record by a new processing record (same
identity, priority, creation time) preserves the invariant. -/
theorem inv_set_processing (s : SysState) (hinv : SysInv s) (jid : Nat) (job b : BatchJob)
    (hl : s.job jid = some job) (hst : job.status = BatchStatus.processing)
    (hbst : b.status = BatchStatus.processing)
    (hbgood : goodJob b)
    (hbid : b.job_id = jid)
    (hbc : b.created_at = job.created_at) :
    SysInv
      { batch_jobs := s.batch_jobs.map (fun p => if p.1 = jid then (p.1, putJob b p.2) else p)
        job_queue := s.job_queue
        processing_jobs := s.processing_jobs
        clock := s.clock + 1
        next_id := s.next_id } := by
  have hl' : lookupJob s.batch_jobs jid = some job := hl
  have hmem : (jid, job) ∈ s.batch_jobs := mem_of_lookupJob hl'
  have hdet : ∀ c, s.job jid = some c → c = job := by
    intro c hc
    rw [hl] at hc
    exact Option.some.inj hc.symm
  have hqne : ∀ x ∈ s.job_queue, x ≠ jid := by
    intro x hx he
    rcases hinv.queue_pending x hx with ⟨c, hlc, hstc⟩
    rw [he] at hlc
    rw [hdet c hlc] at hstc
    rw [hst] at hstc
    exact absurd hstc (by simp)
  constructor
  case ids_lt =>
    dsimp only
    refine forall_map_set s.batch_jobs jid (putJob b)
      (fun p hp _ => hinv.ids_lt p hp) ?_
    intro c hc
    exact hinv.ids_lt (jid, c) hc
  case ids_nodup =>
    dsimp only
    rw [keys_map_set s.batch_jobs jid (putJob b)]
    exact hinv.ids_nodup
  case key_eq =>
    dsimp only
    refine forall_map_set s.batch_jobs jid (putJob b)
      (fun p hp _ => hinv.key_eq p hp) ?_
    intro c _
    exact hbid
  case created_lt =>
    dsimp only
    refine forall_map_set s.batch_jobs jid (putJob b)
      (fun p hp _ => lt_trans (hinv.created_lt p hp) (Nat.lt_succ_self _)) ?_
    intro c _
    show b.created_at < s.clock + 1
    rw [hbc]
    exact lt_trans (hinv.created_lt (jid, job) hmem) (Nat.lt_succ_self _)
  case queue_pending =>
    dsimp only
    intro x hx
    rcases hinv.queue_pending x hx with ⟨c, hlc, hstc⟩
    refine ⟨c, ?_, hstc⟩
    show lookupJob (s.batch_jobs.map (fun p => if p.1 = jid then (p.1, putJob b p.2) else p)) x
      = some c
    rw [lookupJob_map_set s.batch_jobs jid (putJob b) x, if_neg (hqne x hx)]
    exact hlc
  case pending_queued =>
    dsimp only
    refine forall_map_set s.batch_jobs jid (putJob b) ?_ ?_
    · intro p hp _ hpend
      exact hinv.pending_queued p hp hpend
    · intro c _ hpend
      rw [show (putJob b c).status = b.status from rfl, hbst] at hpend
      exact absurd hpend (by simp)
  case queue_nodup =>
    dsimp only
    exact hinv.queue_nodup
  case proc_status =>
    dsimp only
    intro x hx
    by_cases hxj : x = jid
    · subst hxj
      refine ⟨b, ?_, Or.inr (Or.inl hbst)⟩
      show lookupJob (s.batch_jobs.map (fun p => if p.1 = x then (p.1, putJob b p.2) else p)) x
        = some b
      rw [lookupJob_map_set s.batch_jobs x (putJob b) x, if_pos rfl, hl']
      rfl
    · rcases hinv.proc_status x hx with ⟨c, hlc, hstc⟩
      refine ⟨c, ?_, hstc⟩
      show lookupJob (s.batch_jobs.map (fun p => if p.1 = jid then (p.1, putJob b p.2) else p)) x
        = some c
      rw [lookupJob_map_set s.batch_jobs jid (putJob b) x, if_neg hxj]
      exact hlc
  case proc_all =>
    dsimp only
    refine forall_map_set s.batch_jobs jid (putJob b) ?_ ?_
    · intro p hp _ hstp
      exact hinv.proc_all p hp hstp
    · intro c _ _
      exact hinv.proc_all (jid, job) hmem hst
  case proc_not_queued =>
    dsimp only
    exact hinv.proc_not_queued
  case proc_nodup =>
    dsimp only
    exact hinv.proc_nodup
  case proc_bound =>
    dsimp only
    exact hinv.proc_bound
  case jobs_good =>
    dsimp only
    refine forall_map_set s.batch_jobs jid (putJob b)
      (fun p hp _ => hinv.jobs_good p hp) ?_
    intro c _
    exact hbgood
  case queue_sorted =>
    dsimp only
    refine List.Pairwise.imp_of_mem ?_ hinv.queue_sorted
    intro a c ha hc hac
    exact (queueKey_map_set_ne s.batch_jobs jid (putJob b) a c (hqne a ha) (hqne c hc)).2 hac

/-- Replacing a processing job's record by a terminal (completed or
failed) record and dropping it from `PROCESSING_JOBS` preserves the
invariant; `c` is the new clock value. -/
theorem inv_set_terminal (s : SysState) (hinv : SysInv s) (jid : Nat) (job b : BatchJob)
    (c : Nat)
    (hl : s.job jid = some job) (hst : job.status = BatchStatus.processing)
    (hbst : b.status = BatchStatus.failed ∨ b.status = BatchStatus.completed)
    (hbgood : goodJob b)
    (hbid : b.job_id = jid)
    (hbc : b.created_at = job.created_at)
    (hc : s.clock < c) :
    SysInv
      { batch_jobs := s.batch_jobs.map (fun p => if p.1 = jid then (p.1, putJob b p.2) else p)
        job_queue := s.job_queue
        processing_jobs := removeFirst jid s.processing_jobs
        clock := c
        next_id := s.next_id } := by
  have hl' : lookupJob s.batch_jobs jid = some job := hl
  have hmem : (jid, job) ∈ s.batch_jobs := mem_of_lookupJob hl'
  have hdet : ∀ d, s.job jid = some d → d = job := by
    intro d hd
    rw [hl] at hd
    exact Option.some.inj hd.symm
  have hqne : ∀ x ∈ s.job_queue, x ≠ jid := by
    intro x hx he
    rcases hinv.queue_pending x hx with ⟨d, hld, hstd⟩
    rw [he] at hld
    rw [hdet d hld] at hstd
    rw [hst] at hstd
    exact absurd hstd (by simp)
  have hbnp : b.status ≠ BatchStatus.processing := by
    rcases hbst with h | h <;> rw [h] <;> simp
  have hbnpend : b.status ≠ BatchStatus.pending := by
    rcases hbst with h | h <;> rw [h] <;> simp
  constructor
  case ids_lt =>
    dsimp only
    refine forall_map_set s.batch_jobs jid (putJob b)
      (fun p hp _ => hinv.ids_lt p hp) ?_
    intro d hd
    exact hinv.ids_lt (jid, d) hd
  case ids_nodup =>
    dsimp only
    rw [keys_map_set s.batch_jobs jid (putJob b)]
    exact hinv.ids_nodup
  case key_eq =>
    dsimp only
    refine forall_map_set s.batch_jobs jid (putJob b)
      (fun p hp _ => hinv.key_eq p hp) ?_
    intro d _
    exact hbid
  case created_lt =>
    dsimp only
    refine forall_map_set s.batch_jobs jid (putJob b)
      (fun p hp _ => lt_trans (hinv.created_lt p hp) hc) ?_
    intro d _
    show b.created_at < c
    rw [hbc]
    exact lt_trans (hinv.created_lt (jid, job) hmem) hc
  case queue_pending =>
    dsimp only
    intro x hx
    rcases hinv.queue_pending x hx with ⟨d, hld, hstd⟩
    refine ⟨d, ?_, hstd⟩
    show lookupJob (s.batch_jobs.map (fun p => if p.1 = jid then (p.1, putJob b p.2) else p)) x
      = some d
    rw [lookupJob_map_set s.batch_jobs jid (putJob b) x, if_neg (hqne x hx)]
    exact hld
  case pending_queued =>
    dsimp only
    refine forall_map_set s.batch_jobs jid (putJob b) ?_ ?_
    · intro p hp hpe hpend
      rcases hinv.pending_queued p hp hpend with ⟨hcnt, hnp2⟩ | ⟨hip, hcnt⟩
      · exact Or.inl ⟨hcnt, fun hmem2 => hnp2 (mem_of_mem_removeFirst hmem2)⟩
      · exact Or.inr ⟨mem_removeFirst_of_ne hip hpe, hcnt⟩
    · intro d _ hpend
      exact absurd hpend hbnpend
  case queue_nodup =>
    dsimp only
    exact hinv.queue_nodup
  case proc_status =>
    dsimp only
    intro x hx
    have hxp : x ∈ s.processing_jobs := mem_of_mem_removeFirst hx
    have hxne : x ≠ jid := by
      intro he
      rw [he] at hx
      exact not_mem_removeFirst_self hinv.proc_nodup hx
    rcases hinv.proc_status x hxp with ⟨d, hld, hstd⟩
    refine ⟨d, ?_, hstd⟩
    show lookupJob (s.batch_jobs.map (fun p => if p.1 = jid then (p.1, putJob b p.2) else p)) x
      = some d
    rw [lookupJob_map_set s.batch_jobs jid (putJob b) x, if_neg hxne]
    exact hld
  case proc_not_queued =>
    dsimp only
    intro x hx
    exact hinv.proc_not_queued x (mem_of_mem_removeFirst hx)
  case proc_all =>
    dsimp only
    refine forall_map_set s.batch_jobs jid (putJob b) ?_ ?_
    · intro p hp hpe hstp
      exact mem_removeFirst_of_ne (hinv.proc_all p hp hstp) hpe
    · intro d _ hstp
      exact absurd hstp hbnp
  case proc_nodup =>
    dsimp only
    exact List.Nodup.sublist (removeFirst_sublist jid s.processing_jobs) hinv.proc_nodup
  case proc_bound =>
    dsimp only
    exact le_trans (List.Sublist.length_le (removeFirst_sublist jid s.processing_jobs))
      hinv.proc_bound
  case jobs_good =>
    dsimp only
    refine forall_map_set s.batch_jobs jid (putJob b)
      (fun p hp _ => hinv.jobs_good p hp) ?_
    intro d _
    exact hbgood
  case queue_sorted =>
    dsimp only
    refine List.Pairwise.imp_of_mem ?_ hinv.queue_sorted
    intro a d ha hd had
    exact (queueKey_map_set_ne s.batch_jobs jid (putJob b) a d (hqne a ha) (hqne d hd)).2 had

theorem updateProgress_of_ne (j : BatchJob) (h : j.total_items ≠ 0) :
    updateProgress j
      = some { j with progress_percentage :=
          ((j.processed_items : ℚ) / (j.total_items : ℚ)) * 100 } := by
  unfold updateProgress
  rw [if_neg h]

theorem inv_runOneItem (procOk : BatchJobType → Item → Bool) {s : SysState} {jid : Nat}
    {job : BatchJob} (hinv : SysInv s) (hl : s.job jid = some job)
    (hst : job.status = BatchStatus.processing)
    (hrem : job.processed_items < job.parameters.itemsKey.length) :
    SysInv (runOneItem procOk jid s) := by
  have hl' : lookupJob s.batch_jobs jid = some job := hl
  have hmem : (jid, job) ∈ s.batch_jobs := mem_of_lookupJob hl'
  have hjid : job.job_id = jid := hinv.key_eq (jid, job) hmem
  have hget := List.get?_eq_get hrem
  rcases hinv.jobs_good (jid, job) hmem with ⟨hg1, hg2, _⟩
  simp only [runOneItem, hl, hget]
  by_cases h0 : job.total_items = 0
  · have hup : updateProgress (processOneItem
        (procOk job.job_type (job.parameters.itemsKey.get ⟨job.processed_items, hrem⟩))
        job.processed_items (job.parameters.itemsKey.get ⟨job.processed_items, hrem⟩)
        s.clock job) = none := by
      unfold updateProgress
      rw [processOneItem_total, if_pos h0]
    rw [hup]
    refine inv_set_terminal s hinv jid job _ (s.clock + 2) hl hst (Or.inl rfl)
      ?_ ?_ ?_ (by omega)
    · refine ⟨?_, ?_, ?_⟩
      · show (processOneItem _ _ _ _ job).processed_items
          = (processOneItem _ _ _ _ job).successful_items
            + (processOneItem _ _ _ _ job).failed_items
        rw [processOneItem_processed, processOneItem_sum, hg1]
      · show (processOneItem _ _ _ _ job).processed_items
          ≤ (processOneItem _ _ _ _ job).parameters.itemsKey.length
        rw [processOneItem_processed, processOneItem_parameters]
        exact hrem
      · intro hcon
        exact absurd hcon (by simp)
    · show (processOneItem _ _ _ _ job).job_id = jid
      rw [processOneItem_job_id]
      exact hjid
    · show (processOneItem _ _ _ _ job).created_at = job.created_at
      exact processOneItem_created _ _ _ _ _
  · have hne : (processOneItem
        (procOk job.job_type (job.parameters.itemsKey.get ⟨job.processed_items, hrem⟩))
        job.processed_items (job.parameters.itemsKey.get ⟨job.processed_items, hrem⟩)
        s.clock job).total_items ≠ 0 :=
      fun hcc => h0 ((processOneItem_total _ _ _ _ _).symm.trans hcc)
    rw [updateProgress_of_ne _ hne]
    refine inv_set_processing s hinv jid job _ hl hst ?_ ?_ ?_ ?_
    · show (processOneItem _ _ _ _ job).status = BatchStatus.processing
      rw [processOneItem_status]
      exact hst
    · refine ⟨?_, ?_, ?_⟩
      · show (processOneItem _ _ _ _ job).processed_items
          = (processOneItem _ _ _ _ job).successful_items
            + (processOneItem _ _ _ _ job).failed_items
        rw [processOneItem_processed, processOneItem_sum, hg1]
      · show (processOneItem _ _ _ _ job).processed_items
          ≤ (processOneItem _ _ _ _ job).parameters.itemsKey.length
        rw [processOneItem_processed, processOneItem_parameters]
        exact hrem
      · intro hcon
        have hcon2 : (processOneItem
            (procOk job.job_type (job.parameters.itemsKey.get ⟨job.processed_items, hrem⟩))
            job.processed_items (job.parameters.itemsKey.get ⟨job.processed_items, hrem⟩)
            s.clock job).status = BatchStatus.completed := hcon
        rw [processOneItem_status, hst] at hcon2
        exact absurd hcon2 (by simp)
    · show (processOneItem _ _ _ _ job).job_id = jid
      rw [processOneItem_job_id]
      exact hjid
    · show (processOneItem _ _ _ _ job).created_at = job.created_at
      exact processOneItem_created _ _ _ _ _

theorem inv_finishJobStep {s : SysState} {jid : Nat} {job : BatchJob}
    (hinv : SysInv s) (hl : s.job jid = some job)
    (hst : job.status = BatchStatus.processing) :
    SysInv (finishJobStep jid s) := by
  have hl' : lookupJob s.batch_jobs jid = some job := hl
  have hmem : (jid, job) ∈ s.batch_jobs := mem_of_lookupJob hl'
  have hjid : job.job_id = jid := hinv.key_eq (jid, job) hmem
  rcases hinv.jobs_good (jid, job) hmem with ⟨hg1, hg2, _⟩
  simp only [finishJobStep, hl]
  by_cases hty : job.job_type = BatchJobType.model_training
  · rw [if_pos hty]
    refine inv_set_terminal s hinv jid job _ (s.clock + 1) hl hst (Or.inl rfl)
      ?_ ?_ ?_ (Nat.lt_succ_self _)
    · exact ⟨hg1, hg2, fun hcon => absurd hcon (by simp)⟩
    · exact hjid
    · rfl
  · rw [if_neg hty]
    refine inv_set_terminal s hinv jid job _ (s.clock + 1) hl hst (Or.inr rfl)
      ?_ ?_ ?_ (Nat.lt_succ_self _)
    · exact ⟨hg1, hg2, fun _ => rfl⟩
    · exact hjid
    · rfl

/-! ### The invariant holds in every reachable state -/

theorem inv_step {procOk : BatchJobType → Item → Bool} {s t : SysState}
    (hinv : SysInv s) (h : Step procOk s t) : SysInv t := by
  cases h with
  | submit req s => exact inv_submitOp hinv req
  | cancel jid s => exact inv_cancelOp hinv jid
  | start jid s hin hst => exact inv_startJob hinv hin hst
  | work jid s hst hin hty hrem =>
    rcases Option.map_eq_some'.1 hst with ⟨job, hl, hjst⟩
    have hrem2 : (s.job jid).map
        (fun j => decide (j.processed_items < j.parameters.itemsKey.length)) = some true := hrem
    rw [hl, Option.map_some'] at hrem2
    exact inv_runOneItem procOk hinv hl hjst (of_decide_eq_true (Option.some.inj hrem2))
  | finish jid s hst hin hdone =>
    rcases Option.map_eq_some'.1 hst with ⟨job, hl, hjst⟩
    exact inv_finishJobStep hinv hl hjst

theorem inv_reachable {procOk : BatchJobType → Item → Bool} {s : SysState}
    (h : Reachable procOk s) : SysInv s := by
  induction h with
  | init => exact inv_init
  | step hr hs ih => exact inv_step ih hs

/-! ### Frame lemmas: what each operation leaves untouched -/

theorem job_createJobOp_old {s : SysState} {jid : Nat} {b : BatchJob}
    (req : BatchJobRequest) (h : s.job jid = some b) :
    (createJobOp req s).1.job jid = some b := by
  have h' : lookupJob s.batch_jobs jid = some b := h
  show lookupJob (s.batch_jobs ++ [(s.next_id, mkJob req s.next_id s.clock)]) jid = some b
  exact lookupJob_append_left h'

theorem job_startJob_ne (x : Nat) (s : SysState) {jid : Nat} (h : jid ≠ x) :
    (startJob x s).job jid = s.job jid := by
  show lookupJob (s.batch_jobs.map (fun p => if p.1 = x then (p.1, procStart s.clock p.2) else p))
    jid = s.job jid
  rw [lookupJob_map_set, if_neg h]
  rfl

theorem job_startJob_self (x : Nat) (s : SysState) {b : BatchJob} (h : s.job x = some b) :
    (startJob x s).job x = some (procStart s.clock b) := by
  have h' : lookupJob s.batch_jobs x = some b := h
  show lookupJob (s.batch_jobs.map (fun p => if p.1 = x then (p.1, procStart s.clock p.2) else p))
    x = some (procStart s.clock b)
  rw [lookupJob_map_set, if_pos rfl, h']
  rfl

theorem procs_startJob (x : Nat) (s : SysState) :
    (startJob x s).processing_jobs = s.processing_jobs := rfl

theorem jobs_processQueueFuel :
    ∀ (n : Nat) (s : SysState), (processQueueFuel n s).batch_jobs = s.batch_jobs := by
  intro n
  induction n with
  | zero => intro s; rfl
  | succ m ih =>
    intro s
    rw [processQueueFuel]
    by_cases hcap : s.processing_jobs.length < 3
    · rw [if_pos hcap]
      cases hq : s.job_queue with
      | nil => rfl
      | cons x rest =>
        dsimp only
        cases hlx : ({ s with job_queue := rest } : SysState).job x with
        | none => exact ih _
        | some jb =>
          dsimp only
          by_cases hpend : jb.status = BatchStatus.pending
          · rw [if_pos hpend]
            exact ih _
          · rw [if_neg hpend]
            exact ih _
    · rw [if_neg hcap]

theorem job_processQueueFuel (n : Nat) (s : SysState) (jid : Nat) :
    (processQueueFuel n s).job jid = s.job jid := by
  show lookupJob (processQueueFuel n s).batch_jobs jid = lookupJob s.batch_jobs jid
  rw [jobs_processQueueFuel]

theorem procs_processQueueFuel_mono {x : Nat} :
    ∀ (n : Nat) (s : SysState), x ∈ s.processing_jobs →
    x ∈ (processQueueFuel n s).processing_jobs := by
  intro n
  induction n with
  | zero => intro s h; exact h
  | succ m ih =>
    intro s h
    rw [processQueueFuel]
    by_cases hcap : s.processing_jobs.length < 3
    · rw [if_pos hcap]
      cases hq : s.job_queue with
      | nil => exact h
      | cons y rest =>
        dsimp only
        cases hly : ({ s with job_queue := rest } : SysState).job y with
        | none => exact ih _ h
        | some jb =>
          dsimp only
          by_cases hpend : jb.status = BatchStatus.pending
          · rw [if_pos hpend]
            refine ih _ ?_
            exact List.mem_append_left _ h
          · rw [if_neg hpend]
            exact ih _ h
    · rw [if_neg hcap]
      exact h

theorem procs_processQueueFuel_subset {x : Nat} :
    ∀ (n : Nat) (s : SysState), x ∈ (processQueueFuel n s).processing_jobs →
    x ∈ s.processing_jobs ∨ x ∈ s.job_queue := by
  intro n
  induction n with
  | zero => intro s h; exact Or.inl h
  | succ m ih =>
    intro s h
    rw [processQueueFuel] at h
    by_cases hcap : s.processing_jobs.length < 3
    · rw [if_pos hcap] at h
      cases hq : s.job_queue with
      | nil =>
        rw [hq] at h
        exact Or.inl h
      | cons y rest =>
        rw [hq] at h
        dsimp only at h
        cases hly : ({ s with job_queue := rest } : SysState).job y with
        | none =>
          rw [hly] at h
          dsimp only at h
          rcases ih _ h with h1 | h2
          · exact Or.inl h1
          · exact Or.inr (List.mem_cons_of_mem _ h2)
        | some jb =>
          rw [hly] at h
          dsimp only at h
          by_cases hpend : jb.status = BatchStatus.pending
          · rw [if_pos hpend] at h
            rcases ih _ h with h1 | h2
            · rcases List.mem_append.1 h1 with h3 | h4
              · exact Or.inl h3
              · have hxy : x = y := by simpa using h4
                refine Or.inr ?_
                rw [hxy]
                exact List.mem_cons_self _ _
            · exact Or.inr (List.mem_cons_of_mem _ h2)
          · rw [if_neg hpend] at h
            rcases ih _ h with h1 | h2
            · exact Or.inl h1
            · exact Or.inr (List.mem_cons_of_mem _ h2)
    · rw [if_neg hcap] at h
      exact Or.inl h

theorem queue_processQueueFuel_sublist :
    ∀ (n : Nat) (s : SysState),
    List.Sublist (processQueueFuel n s).job_queue s.job_queue := by
  intro n
  induction n with
  | zero => intro s; exact List.Sublist.refl _
  | succ m ih =>
    intro s
    rw [processQueueFuel]
    by_cases hcap : s.processing_jobs.length < 3
    · rw [if_pos hcap]
      cases hq : s.job_queue with
      | nil =>
        dsimp only
        rw [hq]
      | cons y rest =>
        dsimp only
        have hsub : List.Sublist rest (y :: rest) := (List.Sublist.refl rest).cons y
        cases hly : ({ s with job_queue := rest } : SysState).job y with
        | none => exact List.Sublist.trans (ih _) hsub
        | some jb =>
          dsimp only
          by_cases hpend : jb.status = BatchStatus.pending
          · rw [if_pos hpend]
            exact List.Sublist.trans (ih _) hsub
          · rw [if_neg hpend]
            exact List.Sublist.trans (ih _) hsub
    · rw [if_neg hcap]

theorem procs_cancelOp (x : Nat) (s : SysState) :
    (cancelOp x s).1.processing_jobs = s.processing_jobs ∨
    (cancelOp x s).1.processing_jobs = removeFirst x s.processing_jobs := by
  cases hlx : s.job x with
  | none => exact Or.inl (by simp only [cancelOp, hlx])
  | some jb =>
    by_cases hc : jb.status = BatchStatus.completed
    · exact Or.inl (by simp only [cancelOp, hlx, if_pos hc])
    · by_cases hp : jb.status = BatchStatus.processing
      · refine Or.inr ?_
        simp only [cancelOp, hlx, if_neg hc, if_pos hp, setJob]
      · refine Or.inl ?_
        simp only [cancelOp, hlx, if_neg hc, if_neg hp, setJob]

theorem procs_cancelOp_subset (x : Nat) (s : SysState) {z : Nat}
    (h : z ∈ (cancelOp x s).1.processing_jobs) : z ∈ s.processing_jobs := by
  rcases procs_cancelOp x s with he | he
  · rw [he] at h
    exact h
  · rw [he] at h
    exact mem_of_mem_removeFirst h

theorem procs_runOneItem (procOk : BatchJobType → Item → Bool) (x : Nat) (s : SysState) :
    (runOneItem procOk x s).processing_jobs = s.processing_jobs ∨
    (runOneItem procOk x s).processing_jobs = removeFirst x s.processing_jobs := by
  cases hlx : s.job x with
  | none => exact Or.inl (by simp only [runOneItem, hlx])
  | some jb =>
    cases hg : jb.parameters.itemsKey.get? jb.processed_items with
    | none => exact Or.inl (by simp only [runOneItem, hlx, hg])
    | some it =>
      cases hu : updateProgress (processOneItem (procOk jb.job_type it)
          jb.processed_items it s.clock jb) with
      | some j2 => exact Or.inl (by simp only [runOneItem, hlx, hg, hu, setJob])
      | none => exact Or.inr (by simp only [runOneItem, hlx, hg, hu, failJob])

theorem procs_finishJobStep (x : Nat) (s : SysState) :
    (finishJobStep x s).processing_jobs = s.processing_jobs ∨
    (finishJobStep x s).processing_jobs = removeFirst x s.processing_jobs := by
  cases hlx : s.job x with
  | none => exact Or.inl (by simp only [finishJobStep, hlx])
  | some jb =>
    by_cases hty : jb.job_type = BatchJobType.model_training
    · exact Or.inr (by simp only [finishJobStep, hlx, if_pos hty, failJob])
    · exact Or.inr (by simp only [finishJobStep, hlx, if_neg hty])

theorem mem_foldl_insertDesc {key : Nat → Int} {x : Nat} :
    ∀ (l acc : List Nat), (x ∈ l.foldl (fun a y => insertDesc key y a) acc ↔ x ∈ l ∨ x ∈ acc) := by
  intro l
  induction l with
  | nil => intro acc; simp
  | cons y ys ih =>
    intro acc
    simp only [List.foldl_cons]
    rw [ih (insertDesc key y acc)]
    constructor
    · rintro (h1 | h2)
      · exact Or.inl (List.mem_cons_of_mem _ h1)
      · rcases mem_insertDesc.1 h2 with he | hm
        · refine Or.inl ?_
          rw [he]
          exact List.mem_cons_self _ _
        · exact Or.inr hm
    · rintro (h1 | h2)
      · rcases List.mem_cons.1 h1 with he | hm
        · exact Or.inr (mem_insertDesc.2 (Or.inl he))
        · exact Or.inl hm
      · exact Or.inr (mem_insertDesc.2 (Or.inr h2))

theorem mem_stableSortDesc {key : Nat → Int} {x : Nat} {l : List Nat} :
    x ∈ stableSortDesc key l ↔ x ∈ l := by
  unfold stableSortDesc
  rw [mem_foldl_insertDesc l []]
  simp

theorem job_cancelOp_ne (x : Nat) (s : SysState) {jid : Nat} (h : jid ≠ x) :
    (cancelOp x s).1.job jid = s.job jid := by
  cases hlx : s.job x with
  | none => simp only [cancelOp, hlx]
  | some jb =>
    by_cases hc : jb.status = BatchStatus.completed
    · simp only [cancelOp, hlx, if_pos hc]
    · simp only [cancelOp, hlx, if_neg hc]
      show lookupJob (s.batch_jobs.map (fun p => if p.1 = x then
        (p.1, cancelMark s.clock p.2) else p)) jid = s.job jid
      rw [lookupJob_map_set, if_neg h]
      rfl

theorem statusOf_cancelOp_self {s : SysState} {jid : Nat} {b : BatchJob}
    (h : s.job jid = some b) (hnc : b.status ≠ BatchStatus.completed) :
    statusOf (cancelOp jid s).1 jid = some BatchStatus.cancelled := by
  have h' : lookupJob s.batch_jobs jid = some b := h
  simp only [cancelOp, h, if_neg hnc]
  show ((lookupJob (s.batch_jobs.map (fun p => if p.1 = jid then
    (p.1, cancelMark s.clock p.2) else p)) jid).map BatchJob.status)
    = some BatchStatus.cancelled
  rw [lookupJob_map_set, if_pos rfl, h']
  rfl

theorem job_runOneItem_ne (procOk : BatchJobType → Item → Bool) (x : Nat) (s : SysState)
    {jid : Nat} (h : jid ≠ x) :
    (runOneItem procOk x s).job jid = s.job jid := by
  cases hlx : s.job x with
  | none => simp only [runOneItem, hlx]
  | some jb =>
    cases hg : jb.parameters.itemsKey.get? jb.processed_items with
    | none => simp only [runOneItem, hlx, hg]
    | some it =>
      simp only [runOneItem, hlx, hg]
      cases hu : updateProgress (processOneItem (procOk jb.job_type it)
          jb.processed_items it s.clock jb) with
      | some j2 =>
        show lookupJob (s.batch_jobs.map (fun p => if p.1 = x then
          (p.1, putJob j2 p.2) else p)) jid = s.job jid
        rw [lookupJob_map_set, if_neg h]
        rfl
      | none =>
        show lookupJob (s.batch_jobs.map (fun p => if p.1 = x then
          (p.1, putJob _ p.2) else p)) jid = s.job jid
        rw [lookupJob_map_set, if_neg h]
        rfl

theorem job_finishJobStep_ne (x : Nat) (s : SysState) {jid : Nat} (h : jid ≠ x) :
    (finishJobStep x s).job jid = s.job jid := by
  cases hlx : s.job x with
  | none => simp only [finishJobStep, hlx]
  | some jb =>
    by_cases hty : jb.job_type = BatchJobType.model_training
    · simp only [finishJobStep, hlx, if_pos hty]
      show lookupJob (s.batch_jobs.map (fun p => if p.1 = x then
        (p.1, putJob _ p.2) else p)) jid = s.job jid
      rw [lookupJob_map_set, if_neg h]
      rfl
    · simp only [finishJobStep, hlx, if_neg hty]
      show lookupJob (s.batch_jobs.map (fun p => if p.1 = x then
        (p.1, putJob _ p.2) else p)) jid = s.job jid
      rw [lookupJob_map_set, if_neg h]
      rfl

theorem length_removeFirst_mem {x : Nat} {l : List Nat} (h : x ∈ l) :
    (removeFirst x l).length + 1 = l.length := by
  induction l with
  | nil => simp at h
  | cons y ys ih =>
    simp only [removeFirst]
    by_cases hy : y = x
    · rw [if_pos hy]
      rfl
    · rw [if_neg hy]
      rcases List.mem_cons.1 h with he | hm
      · exact absurd he.symm hy
      · simp only [List.length_cons]
        rw [← ih hm]

/-! ### A cancelled job with no live task stays cancelled -/

theorem cancelled_unspawned_absorbing {procOk : BatchJobType → Item → Bool} {s t : SysState}
    {jid : Nat} (hinv : SysInv s) (h : Step procOk s t)
    (hc : statusOf s jid = some BatchStatus.cancelled)
    (hnp : jid ∉ s.processing_jobs) :
    statusOf t jid = some BatchStatus.cancelled ∧ jid ∉ t.processing_jobs := by
  have hc2 : (s.job jid).map BatchJob.status = some BatchStatus.cancelled := hc
  rcases Option.map_eq_some'.1 hc2 with ⟨b, hb, hbst⟩
  have hb' : lookupJob s.batch_jobs jid = some b := hb
  have hjlt : jid < s.next_id := hinv.ids_lt (jid, b) (mem_of_lookupJob hb')
  cases h with
  | submit req s2 =>
    constructor
    · have h1 : (createJobOp req s).1.job jid = some b := job_createJobOp_old req hb
      show ((processQueueFuel (createJobOp req s).1.job_queue.length
        (createJobOp req s).1).job jid).map BatchJob.status = some BatchStatus.cancelled
      rw [job_processQueueFuel, h1, Option.map_some', hbst]
    · intro hmem
      rcases procs_processQueueFuel_subset
          ((createJobOp req s).1.job_queue.length) (createJobOp req s).1 hmem with h1 | h2
      · exact hnp h1
      · have h3 : jid ∈ s.job_queue ++ [s.next_id] := by
          have h2b : jid ∈ stableSortDesc
              (priorityOf (s.batch_jobs ++ [(s.next_id, mkJob req s.next_id s.clock)]))
              (s.job_queue ++ [s.next_id]) := h2
          exact mem_stableSortDesc.1 h2b
        rcases List.mem_append.1 h3 with h4 | h5
        · rcases hinv.queue_pending jid h4 with ⟨c, hlc, hstc⟩
          rw [hb] at hlc
          rw [← Option.some.inj hlc] at hstc
          rw [hbst] at hstc
          exact absurd hstc (by simp)
        · have h6 : jid = s.next_id := by simpa using h5
          rw [h6] at hjlt
          exact absurd hjlt (lt_irrefl _)
  | cancel x s2 =>
    by_cases hx : jid = x
    · subst hx
      refine ⟨statusOf_cancelOp_self hb ?_, ?_⟩
      · rw [hbst]
        simp
      · intro hmem
        exact hnp (procs_cancelOp_subset jid s hmem)
    · refine ⟨?_, ?_⟩
      · show ((cancelOp x s).1.job jid).map BatchJob.status = some BatchStatus.cancelled
        rw [job_cancelOp_ne x s hx, hb, Option.map_some', hbst]
      · intro hmem
        exact hnp (procs_cancelOp_subset x s hmem)
  | start x s2 hin hst =>
    have hx : jid ≠ x := by
      intro he
      apply hnp
      rw [he]
      exact hin
    refine ⟨?_, ?_⟩
    · show ((startJob x s).job jid).map BatchJob.status = some BatchStatus.cancelled
      rw [job_startJob_ne x s hx, hb, Option.map_some', hbst]
    · show jid ∉ (startJob x s).processing_jobs
      rw [procs_startJob]
      exact hnp
  | work x s2 hst hin hty hrem =>
    have hx : jid ≠ x := by
      intro he
      apply hnp
      rw [he]
      exact hin
    refine ⟨?_, ?_⟩
    · show ((runOneItem procOk x s).job jid).map BatchJob.status = some BatchStatus.cancelled
      rw [job_runOneItem_ne procOk x s hx, hb, Option.map_some', hbst]
    · intro hmem
      rcases procs_runOneItem procOk x s with he | he
      · rw [he] at hmem
        exact hnp hmem
      · rw [he] at hmem
        exact hnp (mem_of_mem_removeFirst hmem)
  | finish x s2 hst hin hdone =>
    have hx : jid ≠ x := by
      intro he
      apply hnp
      rw [he]
      exact hin
    refine ⟨?_, ?_⟩
    · show ((finishJobStep x s).job jid).map BatchJob.status = some BatchStatus.cancelled
      rw [job_finishJobStep_ne x s hx, hb, Option.map_some', hbst]
    · intro hmem
      rcases procs_finishJobStep x s with he | he
      · rw [he] at hmem
        exact hnp hmem
      · rw [he] at hmem
        exact hnp (mem_of_mem_removeFirst hmem)

theorem reachableFrom_cancelled {procOk : BatchJobType → Item → Bool} {s t : SysState}
    {jid : Nat} (hs : SysInv s) (hc : statusOf s jid = some BatchStatus.cancelled)
    (hnp : jid ∉ s.processing_jobs)
    (h : ReachableFrom procOk s t) :
    SysInv t ∧ statusOf t jid = some BatchStatus.cancelled ∧ jid ∉ t.processing_jobs := by
  induction h with
  | refl => exact ⟨hs, hc, hnp⟩
  | step hr hstep ih =>
    rcases ih with ⟨h1, h2, h3⟩
    rcases cancelled_unspawned_absorbing h1 hstep h2 h3 with ⟨h4, h5⟩
    exact ⟨inv_step h1 hstep, h4, h5⟩

/-! ### Concrete traces used by the claim theorems -/

/-- The source's mock processors never raise: every item succeeds. -/
def procAllOk : BatchJobType → Item → Bool := fun _ _ => true

/-- Request builder for the concrete scenarios (defaults of the API:
`priority=5` passed explicitly, `max_workers=5`, `timeout_per_item=60`). -/
def mkReq (ty : BatchJobType) (nm : String) (its : List Item) (ps : List Item)
    (pri : Int) : BatchJobRequest :=
  { job_type := ty, name := nm, description := none, items := its,
    parameters := ⟨ps⟩, priority := pri, max_workers := 5, timeout_per_item := 60 }

def defaultJob : BatchJob := mkJob (mkReq BatchJobType.nlp_analysis "d" [] [] 5) 0 0

/-- One job submitted with one item in `items` and no `"items"` key in
`parameters`; the admitted executor has nothing to iterate. -/
def stateDropped1 : SysState :=
  (submitOp (mkReq BatchJobType.nlp_analysis "a" [7] [] 5) initState).1

/-- The created task's first slab has run: job 0 is `processing`. -/
def stateDropped2 : SysState := startJob 0 stateDropped1

def stateDropped : SysState := finishJobStep 0 stateDropped2

theorem stateDropped_reachable : Reachable procAllOk stateDropped :=
  Reachable.step
    (Reachable.step
      (Reachable.step Reachable.init
        (Step.submit (mkReq BatchJobType.nlp_analysis "a" [7] [] 5) initState))
      (Step.start 0 stateDropped1 (by decide) (by decide)))
    (Step.finish 0 stateDropped2 (by decide) (by decide) (by decide))

/-- A job with `items=[]` (`totalItems=0`) but one entry under
`parameters["items"]`: processing it divides by `totalItems = 0`. -/
def stateZero0 : SysState :=
  (submitOp (mkReq BatchJobType.nlp_analysis "c" [] [9] 5) initState).1

def stateZero0s : SysState := startJob 0 stateZero0

def stateZero : SysState := runOneItem procAllOk 0 stateZero0s

theorem stateZero_reachable : Reachable procAllOk stateZero :=
  Reachable.step
    (Reachable.step
      (Reachable.step Reachable.init
        (Step.submit (mkReq BatchJobType.nlp_analysis "c" [] [9] 5) initState))
      (Step.start 0 stateZero0 (by decide) (by decide)))
    (Step.work 0 stateZero0s (by decide) (by decide) (by decide) (by decide))

/-! ### Claims C1, C2, C3 -/

/-- C1: the claim says the executor submits `process(item)` once per
element of the job's submitted `items` list, so that on completion
`processedItems = totalItems` and every submitted item appears in
`results` or `errors`.  The code instead iterates
`job.parameters.get("items", [])` and never stores the submitted items
(the `BatchJob` model has no `items` field), so a job submitted with one
item and no `"items"` parameter key completes with `processedItems = 0`,
`totalItems = 1`, and empty `results`/`errors`: the submitted item is
never processed.  This theorem evaluates the code on that failing input. -/
theorem nlp_job_completes_without_processing_items :
    Reachable procAllOk stateDropped ∧
    statusOf stateDropped 0 = some BatchStatus.completed ∧
    (stateDropped.job 0).map BatchJob.total_items = some 1 ∧
    (stateDropped.job 0).map BatchJob.processed_items = some 0 ∧
    (stateDropped.job 0).map BatchJob.results = some [] ∧
    (stateDropped.job 0).map BatchJob.errors = some [] :=
  ⟨stateDropped_reachable, by decide, by decide, by decide, by decide, by decide⟩

/-- C3 (counterexample): a job submitted with `items = []` (creation
succeeds, `totalItems = 0`) whose `parameters` carry one entry under
`"items"`: once admitted, processing that entry raises
`ZeroDivisionError` in the progress computation and the job ends
`failed` with `processedItems = 1` and `progressPercentage = 0` — not
`completed` with `progressPercentage = 100`, `processedItems = 0` as
claimed for arbitrary parameters. -/
theorem empty_items_job_fails_counterexample :
    Reachable procAllOk stateZero ∧
    (stateZero.job 0).map BatchJob.total_items = some 0 ∧
    statusOf stateZero 0 = some BatchStatus.failed ∧
    (stateZero.job 0).map BatchJob.processed_items = some 1 ∧
    (stateZero.job 0).map BatchJob.progress_percentage = some 0 :=
  ⟨stateZero_reachable, by decide, by decide, by decide, by decide⟩

/-- C3 (amended): submission with `items = []` always succeeds and
creates a pending job with `totalItems = 0`; and an admitted (processing)
job whose type has a dispatch branch and whose `parameters["items"]` list
is empty finishes `completed` with `progressPercentage = 100` and
`processedItems = 0`. -/
theorem empty_param_items_job_completes (procOk : BatchJobType → Item → Bool)
    (s : SysState) (jid : Nat) (job : BatchJob) (req : BatchJobRequest)
    (h : Reachable procOk s) (hreq : req.items = [])
    (hl : s.job jid = some job) (hst : job.status = BatchStatus.processing)
    (hty : job.job_type ≠ BatchJobType.model_training)
    (hpi : job.parameters.itemsKey = []) :
    (createJobOp req s).2.status = BatchStatus.pending ∧
    (createJobOp req s).2.total_items = 0 ∧
    statusOf (finishJobStep jid s) jid = some BatchStatus.completed ∧
    ((finishJobStep jid s).job jid).map BatchJob.progress_percentage = some 100 ∧
    ((finishJobStep jid s).job jid).map BatchJob.processed_items = some 0 := by
  have hinv := inv_reachable h
  have hl' : lookupJob s.batch_jobs jid = some job := hl
  have hmem := mem_of_lookupJob hl'
  rcases hinv.jobs_good (jid, job) hmem with ⟨_, h2, _⟩
  have hp0 : job.processed_items = 0 := by
    rw [hpi] at h2
    exact Nat.le_zero.1 h2
  have hfin : (finishJobStep jid s).job jid
      = some { job with
          status := BatchStatus.completed
          completed_at := some s.clock
          progress_percentage := 100 } := by
    simp only [finishJobStep, hl, if_neg hty]
    show lookupJob (s.batch_jobs.map (fun p => if p.1 = jid then
      (p.1, putJob { job with
        status := BatchStatus.completed
        completed_at := some s.clock
        progress_percentage := 100 } p.2) else p)) jid = _
    rw [lookupJob_map_set, if_pos rfl, hl']
    rfl
  refine ⟨rfl, ?_, ?_, ?_, ?_⟩
  · show req.items.length = 0
    rw [hreq]
    rfl
  · show ((finishJobStep jid s).job jid).map BatchJob.status = some BatchStatus.completed
    rw [hfin]
    rfl
  · rw [hfin]
    rfl
  · rw [hfin, Option.map_some']
    exact congrArg some hp0

/-! ### Saturation / cancellation traces for C4-C9 -/

def stateSat1 : SysState := (submitOp (mkReq BatchJobType.nlp_analysis "f1" [] [] 5) initState).1

def stateSat2 : SysState := (submitOp (mkReq BatchJobType.nlp_analysis "f2" [] [] 5) stateSat1).1

def stateSat3 : SysState := (submitOp (mkReq BatchJobType.nlp_analysis "f3" [] [] 5) stateSat2).1

def stateSat3a : SysState := startJob 0 stateSat3

def stateSat3b : SysState := startJob 1 stateSat3a

/-- All three spawned tasks have run their first slab: three jobs
`processing` (the cap). -/
def stateSat3s : SysState := startJob 2 stateSat3b

/-- A fourth job submitted against the cap: it stays pending in the queue. -/
def stateFour : SysState := (submitOp (mkReq BatchJobType.nlp_analysis "f4" [] [] 5) stateSat3s).1

/-- Job 0 finishes, freeing a slot; no admission pass runs. -/
def stateFreed : SysState := finishJobStep 0 stateFour

theorem stateFour_reachable : Reachable procAllOk stateFour :=
  Reachable.step
    (Reachable.step
      (Reachable.step
        (Reachable.step
          (Reachable.step
            (Reachable.step
              (Reachable.step Reachable.init
                (Step.submit (mkReq BatchJobType.nlp_analysis "f1" [] [] 5) initState))
              (Step.submit (mkReq BatchJobType.nlp_analysis "f2" [] [] 5) stateSat1))
            (Step.submit (mkReq BatchJobType.nlp_analysis "f3" [] [] 5) stateSat2))
          (Step.start 0 stateSat3 (by decide) (by decide)))
        (Step.start 1 stateSat3a (by decide) (by decide)))
      (Step.start 2 stateSat3b (by decide) (by decide)))
    (Step.submit (mkReq BatchJobType.nlp_analysis "f4" [] [] 5) stateSat3s)

theorem stateFreed_reachable : Reachable procAllOk stateFreed :=
  Reachable.step stateFour_reachable
    (Step.finish 0 stateFour (by decide) (by decide) (by decide))

def stateRun0 : SysState := (submitOp (mkReq BatchJobType.nlp_analysis "e" [] [] 5) initState).1

/-- One processing job (spawned and started), then cancelled. -/
def stateRun : SysState := startJob 0 stateRun0

def stateCancelled : SysState := (cancelOp 0 stateRun).1

theorem stateRun_reachable : Reachable procAllOk stateRun :=
  Reachable.step
    (Reachable.step Reachable.init
      (Step.submit (mkReq BatchJobType.nlp_analysis "e" [] [] 5) initState))
    (Step.start 0 stateRun0 (by decide) (by decide))

theorem stateCancelled_reachable : Reachable procAllOk stateCancelled :=
  Reachable.step stateRun_reachable (Step.cancel 0 stateRun)

def stateDone0 : SysState :=
  (submitOp (mkReq BatchJobType.nlp_analysis "g" [] [] 5) initState).1

def stateDone1 : SysState := startJob 0 stateDone0

/-- One job run to completion. -/
def stateDone : SysState := finishJobStep 0 stateDone1

theorem stateDone_reachable : Reachable procAllOk stateDone :=
  Reachable.step
    (Reachable.step
      (Reachable.step Reachable.init
        (Step.submit (mkReq BatchJobType.nlp_analysis "g" [] [] 5) initState))
      (Step.start 0 stateDone0 (by decide) (by decide)))
    (Step.finish 0 stateDone1 (by decide) (by decide) (by decide))

/-- The spawned window: one submission, admission pass done — job 0 was
popped from the queue and its task created, but the task has not run
yet: the job is still `pending`, off the queue, with its handle in
`PROCESSING_JOBS`. -/
def stateSpawn : SysState :=
  (submitOp (mkReq BatchJobType.nlp_analysis "r" [] [] 5) initState).1

theorem stateSpawn_reachable : Reachable procAllOk stateSpawn :=
  Reachable.step Reachable.init
    (Step.submit (mkReq BatchJobType.nlp_analysis "r" [] [] 5) initState)

/-- A cancel lands in the spawned window: the job is found `pending`
(not yet PROCESSING) and marked cancelled, its task left registered. -/
def stateSpawnCancelled : SysState := (cancelOp 0 stateSpawn).1

/-- The created task then runs its first slab anyway and overwrites the
cancellation with `status = PROCESSING`. -/
def stateSpawnRace : SysState := startJob 0 stateSpawnCancelled

theorem stateSpawnRace_reachable : Reachable procAllOk stateSpawnRace :=
  Reachable.step
    (Reachable.step stateSpawn_reachable (Step.cancel 0 stateSpawn))
    (Step.start 0 stateSpawnCancelled (by decide) (by decide))

/-! ### Claims C4, C5, C6, C7 -/

/-- C4: in every reachable state at most `MAX_CONCURRENT_JOBS = 3` jobs
have status `processing` (and the `PROCESSING_JOBS` registry holds at
most 3 entries); moreover the admission pass is a no-op whenever 3 jobs
are already being processed — a pending job is only started while fewer
than 3 are in flight. -/
theorem processing_concurrency_bounded (procOk : BatchJobType → Item → Bool)
    (s : SysState) (h : Reachable procOk s) :
    (s.batch_jobs.filter (fun p => p.2.status == BatchStatus.processing)).length ≤ 3 ∧
    s.processing_jobs.length ≤ 3 ∧
    (¬ s.processing_jobs.length < 3 → processJobQueue s = s) := by
  have hinv := inv_reachable h
  refine ⟨?_, hinv.proc_bound, ?_⟩
  · have hsub : ((s.batch_jobs.filter
        (fun p => p.2.status == BatchStatus.processing)).map Prod.fst) ⊆ s.processing_jobs := by
      intro x hx
      rcases List.mem_map.1 hx with ⟨p, hp, hpe⟩
      have hpm := List.mem_of_mem_filter hp
      have hcond := List.of_mem_filter hp
      simp only [beq_iff_eq] at hcond
      exact hpe ▸ hinv.proc_all p hpm hcond
    have hnd : ((s.batch_jobs.filter
        (fun p => p.2.status == BatchStatus.processing)).map Prod.fst).Nodup :=
      List.Nodup.sublist ((List.filter_sublist _).map Prod.fst) hinv.ids_nodup
    calc (s.batch_jobs.filter (fun p => p.2.status == BatchStatus.processing)).length
        = ((s.batch_jobs.filter
            (fun p => p.2.status == BatchStatus.processing)).map Prod.fst).length :=
          (List.length_map _ _).symm
      _ ≤ s.processing_jobs.length :=
          List.Subperm.length_le (List.subperm_of_subset hnd hsub)
      _ ≤ 3 := hinv.proc_bound
  · intro hfull
    cases hq : s.job_queue with
    | nil =>
      rw [processJobQueue, hq]
      rfl
    | cons x rest =>
      rw [processJobQueue, hq]
      show processQueueFuel (rest.length + 1) s = s
      rw [processQueueFuel, if_neg hfull]

theorem processing_concurrency_bounded_witness :
    (stateFour.batch_jobs.filter (fun p => p.2.status == BatchStatus.processing)).length ≤ 3 ∧
    stateFour.processing_jobs.length ≤ 3 ∧
    (¬ stateFour.processing_jobs.length < 3 → processJobQueue stateFour = stateFour) :=
  processing_concurrency_bounded procAllOk stateFour stateFour_reachable

/-- C5 (counterexample): `cancel_batch_job` rejects only COMPLETED jobs.
A second cancel of an already-cancelled job is NOT a `Conflict`: it
returns ok again and overwrites `completed_at` (from tick 2 to tick 3),
refuting the claimed idempotence on terminal jobs. -/
theorem cancel_terminal_succeeds_counterexample :
    Reachable procAllOk stateCancelled ∧
    statusOf stateCancelled 0 = some BatchStatus.cancelled ∧
    completedAtOf stateCancelled 0 = some (some 2) ∧
    (cancelOp 0 stateCancelled).2 = CancelOutcome.ok ∧
    completedAtOf (cancelOp 0 stateCancelled).1 0 = some (some 3) :=
  ⟨stateCancelled_reachable, by decide, by decide, by decide, by decide⟩

/-- C5 (amended): cancelling a COMPLETED job fails with `Conflict`
(HTTP 400) and leaves the whole state unchanged; cancelling a `failed`
or `cancelled` job, however, succeeds: it re-marks the job cancelled and
overwrites `completedAt` with the current time. -/
theorem cancel_completed_conflict (s : SysState) (jid : Nat) (job : BatchJob)
    (hl : s.job jid = some job) :
    (job.status = BatchStatus.completed →
      cancelOp jid s = (s, CancelOutcome.conflictCompleted)) ∧
    ((job.status = BatchStatus.failed ∨ job.status = BatchStatus.cancelled) →
      (cancelOp jid s).2 = CancelOutcome.ok ∧
      statusOf (cancelOp jid s).1 jid = some BatchStatus.cancelled ∧
      completedAtOf (cancelOp jid s).1 jid = some (some s.clock)) := by
  constructor
  · intro hc
    simp only [cancelOp, hl, if_pos hc]
  · intro hterm
    have hnc : job.status ≠ BatchStatus.completed := by
      rcases hterm with h | h <;> rw [h] <;> simp
    have hl' : lookupJob s.batch_jobs jid = some job := hl
    refine ⟨?_, statusOf_cancelOp_self hl hnc, ?_⟩
    · simp only [cancelOp, hl, if_neg hnc]
    · simp only [cancelOp, hl, if_neg hnc]
      show ((lookupJob (s.batch_jobs.map (fun p => if p.1 = jid then
        (p.1, cancelMark s.clock p.2) else p)) jid).map BatchJob.completed_at)
        = some (some s.clock)
      rw [lookupJob_map_set, if_pos rfl, hl']
      rfl

theorem cancel_completed_conflict_witness :
    stateDone.job 0 = some ((stateDone.job 0).getD defaultJob) ∧
    ((((stateDone.job 0).getD defaultJob).status = BatchStatus.completed →
        cancelOp 0 stateDone = (stateDone, CancelOutcome.conflictCompleted)) ∧
      ((((stateDone.job 0).getD defaultJob).status = BatchStatus.failed ∨
          ((stateDone.job 0).getD defaultJob).status = BatchStatus.cancelled) →
        (cancelOp 0 stateDone).2 = CancelOutcome.ok ∧
        statusOf (cancelOp 0 stateDone).1 0 = some BatchStatus.cancelled ∧
        completedAtOf (cancelOp 0 stateDone).1 0 = some (some stateDone.clock))) :=
  ⟨by decide, cancel_completed_conflict stateDone 0 ((stateDone.job 0).getD defaultJob)
    (by decide)⟩

/-- C6: in every reachable state the pending queue is ordered by
(priority descending, createdAt ascending — FIFO among equal
priorities), and an admission pass with a free slot admits exactly the
queue head: the pass pops it from the queue and registers its task, and
that task's first slab then sets it `processing` — so a higher-priority
later submission is admitted before an earlier lower-priority one. -/
theorem queue_priority_fifo_order (procOk : BatchJobType → Item → Bool)
    (s : SysState) (jid : Nat) (rest : List Nat) (h : Reachable procOk s)
    (hq : s.job_queue = jid :: rest) (hcap : s.processing_jobs.length < 3) :
    s.job_queue.Pairwise (queueKey s.batch_jobs) ∧
    jid ∈ (processJobQueue s).processing_jobs ∧
    jid ∉ (processJobQueue s).job_queue ∧
    statusOf (startJob jid (processJobQueue s)) jid = some BatchStatus.processing := by
  have hinv := inv_reachable h
  rcases hinv.queue_pending jid (by rw [hq]; exact List.mem_cons_self _ _) with ⟨job, hl, hpend⟩
  have hl' : lookupJob s.batch_jobs jid = some job := hl
  have hnodup : (jid :: rest).Nodup := by
    rw [← hq]
    exact hinv.queue_nodup
  have hnr : jid ∉ rest := (List.nodup_cons.1 hnodup).1
  have hexp : processJobQueue s = processQueueFuel (rest.length + 1) s := by
    rw [processJobQueue, hq, List.length_cons]
  have hred : processQueueFuel (rest.length + 1) s
      = processQueueFuel rest.length (createTask jid { s with job_queue := rest }) := by
    rw [processQueueFuel, if_pos hcap, hq]
    dsimp only [SysState.job]
    simp only [hl']
    rw [if_pos hpend]
  refine ⟨hinv.queue_sorted, ?_, ?_, ?_⟩
  · rw [hexp, hred]
    refine procs_processQueueFuel_mono rest.length _ ?_
    show jid ∈ ({ s with job_queue := rest } : SysState).processing_jobs ++ [jid]
    exact List.mem_append_right _ (List.mem_singleton.2 rfl)
  · rw [hexp, hred]
    intro hmem
    have hsubq := queue_processQueueFuel_sublist rest.length
      (createTask jid { s with job_queue := rest })
    exact hnr (hsubq.subset hmem)
  · have hjq : (processJobQueue s).job jid = some job := by
      rw [hexp, hred, job_processQueueFuel]
      exact hl
    show ((startJob jid (processJobQueue s)).job jid).map BatchJob.status
      = some BatchStatus.processing
    rw [job_startJob_self jid _ hjq]
    rfl

theorem queue_priority_fifo_order_witness :
    stateFreed.job_queue = 3 :: [] ∧ stateFreed.processing_jobs.length < 3 ∧
    (stateFreed.job_queue.Pairwise (queueKey stateFreed.batch_jobs) ∧
      3 ∈ (processJobQueue stateFreed).processing_jobs ∧
      3 ∉ (processJobQueue stateFreed).job_queue ∧
      statusOf (startJob 3 (processJobQueue stateFreed)) 3 = some BatchStatus.processing) :=
  ⟨by decide, by decide,
    queue_priority_fifo_order procAllOk stateFreed 3 [] stateFreed_reachable
      (by decide) (by decide)⟩

/-- C7 (counterexample): the claim fails in the spawned window.  After a
submission's admission pass pops job 0 and creates its task, the job is
still `pending`; a cancel landing there succeeds (ok) and marks it
cancelled — but the created task's first slab then runs and
unconditionally sets `status = PROCESSING`, so the cancelled pending job
IS later in status `processing`. -/
theorem cancel_pending_race_counterexample :
    Reachable procAllOk stateSpawnRace ∧
    statusOf stateSpawn 0 = some BatchStatus.pending ∧
    0 ∈ stateSpawn.processing_jobs ∧
    (cancelOp 0 stateSpawn).2 = CancelOutcome.ok ∧
    statusOf stateSpawnCancelled 0 = some BatchStatus.cancelled ∧
    statusOf stateSpawnRace 0 = some BatchStatus.processing :=
  ⟨stateSpawnRace_reachable, by decide, by decide, by decide, by decide, by decide⟩

/-- C7 (amended): cancelling a pending job whose task has NOT been
created (its id is not in `PROCESSING_JOBS`, the normal queued case)
removes its id from the queue and marks it cancelled, and in every state
reachable from there the job is never in status `processing`.  Only the
spawned window — popped id with a created task that has not yet run —
escapes this. -/
theorem cancelled_pending_never_processing (procOk : BatchJobType → Item → Bool)
    (s : SysState) (jid : Nat) (job : BatchJob) (t : SysState)
    (h : Reachable procOk s) (hl : s.job jid = some job)
    (hst : job.status = BatchStatus.pending)
    (hnp : jid ∉ s.processing_jobs)
    (hrf : ReachableFrom procOk (cancelOp jid s).1 t) :
    jid ∉ (cancelOp jid s).1.job_queue ∧
    statusOf (cancelOp jid s).1 jid = some BatchStatus.cancelled ∧
    statusOf t jid ≠ some BatchStatus.processing := by
  have hinv := inv_reachable h
  have hnc : job.status ≠ BatchStatus.completed := by
    rw [hst]
    simp
  have hcan := statusOf_cancelOp_self hl hnc
  have hnp2 : jid ∉ (cancelOp jid s).1.processing_jobs := fun hmem =>
    hnp (procs_cancelOp_subset jid s hmem)
  refine ⟨?_, hcan, ?_⟩
  · simp only [cancelOp, hl, if_neg hnc]
    show jid ∉ removeFirst jid s.job_queue
    exact not_mem_removeFirst_self hinv.queue_nodup
  · have hrc := reachableFrom_cancelled (inv_cancelOp hinv jid) hcan hnp2 hrf
    rw [hrc.2.1]
    simp

theorem cancelled_pending_never_processing_witness :
    stateFour.job 3 = some ((stateFour.job 3).getD defaultJob) ∧
    ((stateFour.job 3).getD defaultJob).status = BatchStatus.pending ∧
    3 ∉ stateFour.processing_jobs ∧
    (3 ∉ (cancelOp 3 stateFour).1.job_queue ∧
      statusOf (cancelOp 3 stateFour).1 3 = some BatchStatus.cancelled ∧
      statusOf (cancelOp 3 stateFour).1 3 ≠ some BatchStatus.processing) :=
  ⟨by decide, by decide, by decide,
    cancelled_pending_never_processing procAllOk stateFour 3
      ((stateFour.job 3).getD defaultJob) (cancelOp 3 stateFour).1
      stateFour_reachable (by decide) (by decide) (by decide)
      (ReachableFrom.refl _)⟩

/-! ### Claims C8, C9, C10 -/

/-- C8 (counterexample): with three jobs processing and a fourth pending,
finishing job 0 frees a slot (`processing_jobs` drops to 2) and the
queue still holds the pending job 3 — yet job 3 remains `pending`: the
terminal transition triggers no admission pass, refuting the claim that
the next pending job is admitted without a new submission. -/
theorem terminal_transition_no_admission_counterexample :
    Reachable procAllOk stateFreed ∧
    statusOf stateFour 3 = some BatchStatus.pending ∧
    stateFour.processing_jobs.length = 3 ∧
    statusOf stateFreed 0 = some BatchStatus.completed ∧
    stateFreed.processing_jobs.length = 2 ∧
    stateFreed.job_queue = [3] ∧
    statusOf stateFreed 3 = some BatchStatus.pending :=
  ⟨stateFreed_reachable, by decide, by decide, by decide, by decide, by decide, by decide⟩

/-- C8 (amended): when a processing job reaches a terminal state through
the executor, its task handle is removed from `PROCESSING_JOBS` (freeing
one slot) but no admission pass runs: the queue and every other job
record are left exactly as they were; a queued pending job is admitted
only by the pass that a later submission schedules. -/
theorem finish_frees_slot_without_admission (procOk : BatchJobType → Item → Bool)
    (s : SysState) (jid : Nat) (job : BatchJob)
    (h : Reachable procOk s) (hl : s.job jid = some job)
    (hst : job.status = BatchStatus.processing) (hin : jid ∈ s.processing_jobs) :
    (finishJobStep jid s).job_queue = s.job_queue ∧
    jid ∉ (finishJobStep jid s).processing_jobs ∧
    (finishJobStep jid s).processing_jobs.length + 1 = s.processing_jobs.length ∧
    (∀ p ∈ s.batch_jobs, p.1 ≠ jid → (finishJobStep jid s).job p.1 = some p.2) := by
  have hinv := inv_reachable h
  have hqfin : (finishJobStep jid s).job_queue = s.job_queue := by
    simp only [finishJobStep, hl]
    by_cases hty : job.job_type = BatchJobType.model_training
    · rw [if_pos hty]
      rfl
    · rw [if_neg hty]
      rfl
  have hpfin : (finishJobStep jid s).processing_jobs = removeFirst jid s.processing_jobs := by
    simp only [finishJobStep, hl]
    by_cases hty : job.job_type = BatchJobType.model_training
    · rw [if_pos hty]
      rfl
    · rw [if_neg hty]
  refine ⟨hqfin, ?_, ?_, ?_⟩
  · rw [hpfin]
    exact not_mem_removeFirst_self hinv.proc_nodup
  · rw [hpfin]
    exact length_removeFirst_mem hin
  · intro p hp hne
    rw [job_finishJobStep_ne jid s hne]
    exact lookupJob_of_mem hinv.ids_nodup hp

theorem finish_frees_slot_without_admission_witness :
    stateFour.job 0 = some ((stateFour.job 0).getD defaultJob) ∧
    ((stateFour.job 0).getD defaultJob).status = BatchStatus.processing ∧
    0 ∈ stateFour.processing_jobs ∧
    ((finishJobStep 0 stateFour).job_queue = stateFour.job_queue ∧
      0 ∉ (finishJobStep 0 stateFour).processing_jobs ∧
      (finishJobStep 0 stateFour).processing_jobs.length + 1
        = stateFour.processing_jobs.length ∧
      (∀ p ∈ stateFour.batch_jobs, p.1 ≠ 0 →
        (finishJobStep 0 stateFour).job p.1 = some p.2)) :=
  ⟨by decide, by decide, by decide,
    finish_frees_slot_without_admission procAllOk stateFour 0
      ((stateFour.job 0).getD defaultJob) stateFour_reachable
      (by decide) (by decide) (by decide)⟩

/-- C9 (counterexample): right after a submission's admission pass pops
a job and creates its task, the popped job is still `pending` yet occurs
zero times in the queue (its id sits in `PROCESSING_JOBS` waiting for
the task's first run) — a reachable state refuting "every pending job's
id is in the queue exactly once". -/
theorem pending_spawned_unqueued_counterexample :
    Reachable procAllOk stateSpawn ∧
    statusOf stateSpawn 0 = some BatchStatus.pending ∧
    stateSpawn.job_queue.count 0 = 0 ∧
    0 ∈ stateSpawn.processing_jobs :=
  ⟨stateSpawn_reachable, by decide, by decide, by decide⟩

/-- C9 (amended): in every reachable state, every id in the queue refers
to a stored job whose status is `pending` and the queue has no
duplicates; and every stored `pending` job's id either occurs in the
queue exactly once with no created task, or — in the window between the
admission pass's `create_task` and that task's first run — occurs zero
times in the queue with its task handle in `PROCESSING_JOBS`. -/
theorem queue_record_coherence (procOk : BatchJobType → Item → Bool)
    (s : SysState) (h : Reachable procOk s) :
    (∀ jid ∈ s.job_queue, ∃ job, s.job jid = some job ∧
      job.status = BatchStatus.pending) ∧
    s.job_queue.Nodup ∧
    (∀ p ∈ s.batch_jobs, p.2.status = BatchStatus.pending →
      (s.job_queue.count p.1 = 1 ∧ p.1 ∉ s.processing_jobs) ∨
      (p.1 ∈ s.processing_jobs ∧ s.job_queue.count p.1 = 0)) :=
  ⟨(inv_reachable h).queue_pending, (inv_reachable h).queue_nodup,
    (inv_reachable h).pending_queued⟩

theorem queue_record_coherence_witness :
    (∀ jid ∈ stateSpawn.job_queue, ∃ job, stateSpawn.job jid = some job ∧
      job.status = BatchStatus.pending) ∧
    stateSpawn.job_queue.Nodup ∧
    (∀ p ∈ stateSpawn.batch_jobs, p.2.status = BatchStatus.pending →
      (stateSpawn.job_queue.count p.1 = 1 ∧ p.1 ∉ stateSpawn.processing_jobs) ∨
      (p.1 ∈ stateSpawn.processing_jobs ∧ stateSpawn.job_queue.count p.1 = 0)) :=
  queue_record_coherence procAllOk stateSpawn stateSpawn_reachable

/-- A model_training job admitted straight from an empty system: the
admission pass spawns it and the task's first slab sets it `processing`
before the executor's dispatch raises. -/
def stateMT0 : SysState :=
  (submitOp (mkReq BatchJobType.model_training "m" [] [] 5) initState).1

def stateMT : SysState := startJob 0 stateMT0

theorem stateMT_reachable : Reachable procAllOk stateMT :=
  Reachable.step
    (Reachable.step Reachable.init
      (Step.submit (mkReq BatchJobType.model_training "m" [] [] 5) initState))
    (Step.start 0 stateMT0 (by decide) (by decide))

/-- C10: a `model_training` submission is accepted — the stored job is
created `pending` with its type recorded — but the executor dispatch has
no branch for this type, so whenever such a job is admitted
(processing), its terminal transition marks it `failed` and appends
exactly one job-level (`type: job_failure`) entry to `errors`. -/
theorem model_training_job_fails_on_admission (procOk : BatchJobType → Item → Bool)
    (s : SysState) (jid : Nat) (job : BatchJob) (req : BatchJobRequest)
    (h : Reachable procOk s)
    (hreq : req.job_type = BatchJobType.model_training)
    (hl : s.job jid = some job) (hst : job.status = BatchStatus.processing)
    (hty : job.job_type = BatchJobType.model_training) :
    jobTypeOf (createJobOp req s).1 s.next_id = some BatchJobType.model_training ∧
    statusOf (createJobOp req s).1 s.next_id = some BatchStatus.pending ∧
    statusOf (finishJobStep jid s) jid = some BatchStatus.failed ∧
    ((finishJobStep jid s).job jid).map BatchJob.errors
      = some (job.errors ++ [jobFailureEntry "Unknown job type: model_training" s.clock]) := by
  have hinv := inv_reachable h
  have hl' : lookupJob s.batch_jobs jid = some job := hl
  have hfresh : s.next_id ∉ s.batch_jobs.map Prod.fst := by
    intro hmem
    rcases List.mem_map.1 hmem with ⟨p, hp, hpe⟩
    exact absurd (hpe ▸ hinv.ids_lt p hp) (lt_irrefl _)
  have hnew : (createJobOp req s).1.job s.next_id = some (mkJob req s.next_id s.clock) := by
    show lookupJob (s.batch_jobs ++ [(s.next_id, mkJob req s.next_id s.clock)]) s.next_id = _
    rw [lookupJob_append_right hfresh]
    simp [lookupJob]
  have hfin : (finishJobStep jid s).job jid
      = some { job with
          status := BatchStatus.failed
          completed_at := some s.clock
          errors := job.errors ++
            [jobFailureEntry "Unknown job type: model_training" s.clock] } := by
    simp only [finishJobStep, failJob, hl, if_pos hty]
    show lookupJob (s.batch_jobs.map (fun p => if p.1 = jid then
      (p.1, putJob { job with
        status := BatchStatus.failed
        completed_at := some s.clock
        errors := job.errors ++
          [jobFailureEntry "Unknown job type: model_training" s.clock] } p.2) else p)) jid = _
    rw [lookupJob_map_set, if_pos rfl, hl']
    rfl
  refine ⟨?_, ?_, ?_, ?_⟩
  · show ((createJobOp req s).1.job s.next_id).map BatchJob.job_type = _
    rw [hnew]
    show some req.job_type = _
    rw [hreq]
  · show ((createJobOp req s).1.job s.next_id).map BatchJob.status = _
    rw [hnew]
    rfl
  · show ((finishJobStep jid s).job jid).map BatchJob.status = _
    rw [hfin]
    rfl
  · rw [hfin]
    rfl

theorem model_training_job_fails_on_admission_witness :
    stateMT.job 0 = some ((stateMT.job 0).getD defaultJob) ∧
    ((stateMT.job 0).getD defaultJob).status = BatchStatus.processing ∧
    ((stateMT.job 0).getD defaultJob).job_type = BatchJobType.model_training ∧
    (jobTypeOf (createJobOp (mkReq BatchJobType.model_training "m" [] [] 5) stateMT).1
        stateMT.next_id = some BatchJobType.model_training ∧
      statusOf (createJobOp (mkReq BatchJobType.model_training "m" [] [] 5) stateMT).1
        stateMT.next_id = some BatchStatus.pending ∧
      statusOf (finishJobStep 0 stateMT) 0 = some BatchStatus.failed ∧
      ((finishJobStep 0 stateMT).job 0).map BatchJob.errors
        = some (((stateMT.job 0).getD defaultJob).errors ++
            [jobFailureEntry "Unknown job type: model_training" stateMT.clock])) :=
  ⟨by decide, by decide, by decide,
    model_training_job_fails_on_admission procAllOk stateMT 0
      ((stateMT.job 0).getD defaultJob) (mkReq BatchJobType.model_training "m" [] [] 5)
      stateMT_reachable rfl (by decide) (by decide) (by decide)⟩

theorem empty_param_items_job_completes_witness :
    (mkReq BatchJobType.nlp_analysis "w3" [] [] 5).items = ([] : List Item) ∧
    stateRun.job 0 = some ((stateRun.job 0).getD defaultJob) ∧
    ((stateRun.job 0).getD defaultJob).status = BatchStatus.processing ∧
    ((stateRun.job 0).getD defaultJob).job_type ≠ BatchJobType.model_training ∧
    ((stateRun.job 0).getD defaultJob).parameters.itemsKey = ([] : List Item) ∧
    ((createJobOp (mkReq BatchJobType.nlp_analysis "w3" [] [] 5) stateRun).2.status
        = BatchStatus.pending ∧
      (createJobOp (mkReq BatchJobType.nlp_analysis "w3" [] [] 5) stateRun).2.total_items = 0 ∧
      statusOf (finishJobStep 0 stateRun) 0 = some BatchStatus.completed ∧
      ((finishJobStep 0 stateRun).job 0).map BatchJob.progress_percentage = some 100 ∧
      ((finishJobStep 0 stateRun).job 0).map BatchJob.processed_items = some 0) :=
  ⟨rfl, by decide, by decide, by decide, by decide,
    empty_param_items_job_completes procAllOk stateRun 0 ((stateRun.job 0).getD defaultJob)
      (mkReq BatchJobType.nlp_analysis "w3" [] [] 5) stateRun_reachable rfl
      (by decide) (by decide) (by decide) (by decide)⟩
